import Mathlib

/-!
Verification of the content-ingestion and extraction pipeline of the
read-it-later backend (`src/services/contentExtractor.ts` and
`src/services/fileProcessor.ts`).

The TypeScript sources are shallowly embedded as executable Lean
definitions.  Strings are modelled over `List Char` (ASCII assumptions are
noted where the JavaScript originals are Unicode-aware); JavaScript
IEEE-754 double arithmetic is modelled exactly with integer arithmetic;
external libraries (JSDOM, Readability, pdf-parse, mammoth, marked, epub)
and the network are modelled as oracle parameters, while all logic written
in the repository itself is transcribed.
-/

/-! ## Character and list-of-character utilities -/

/-- ASCII lower-casing of a character (model of `String.prototype.toLowerCase`
restricted to ASCII, which is all the comparisons in the source need). -/
def lcChar (c : Char) : Char :=
  if 'A' ≤ c ∧ c ≤ 'Z' then Char.ofNat (c.toNat + 32) else c

/-- Lower-case a character list. -/
def lowerL (l : List Char) : List Char := l.map lcChar

/-- Lower-case a string (ASCII model of `toLowerCase`). -/
def toLowerStr (s : String) : String := ⟨lowerL s.data⟩

/-- Whitespace test matching the characters the source's `\s`-based splits
rely on (ASCII model of the regex class `\s`). -/
def wsChar (c : Char) : Bool :=
  c = ' ' ∨ c = '\t' ∨ c = '\n' ∨ c = '\r'

/-- Word character, the regex class `\w` = `[A-Za-z0-9_]`. -/
def wordChar (c : Char) : Bool :=
  ('a' ≤ c ∧ c ≤ 'z') ∨ ('A' ≤ c ∧ c ≤ 'Z') ∨ ('0' ≤ c ∧ c ≤ '9') ∨ c = '_'

/-- Quote character (`"` or `'`). -/
def quoteChar (c : Char) : Bool :=
  c = '"' ∨ c = '\''

/-- Does list `l` start with the pattern `p`? -/
def startsW : List Char → List Char → Bool
  | [], _ => true
  | _ :: _, [] => false
  | a :: p', b :: l' => a = b && startsW p' l'

/-- Does the pattern `p` occur as a contiguous sublist of `l`?
Model of `String.prototype.includes`. -/
def occursIn (p : List Char) : List Char → Bool
  | [] => startsW p []
  | c :: rest => startsW p (c :: rest) || occursIn p rest

/-- `String.prototype.includes` on strings. -/
def containsSub (s sub : String) : Bool := occursIn sub.data s.data

/-- `String.prototype.endsWith` on strings. -/
def endsWithStr (s suff : String) : Bool :=
  startsW suff.data (s.data.drop (s.data.length - suff.data.length))
  && decide (suff.data.length ≤ s.data.length)

/-- Index (from the front) of the last occurrence of `c`, if any
(model of `String.prototype.lastIndexOf` restricted to found/not-found). -/
def lastIdxOf (c : Char) : List Char → Option Nat
  | [] => none
  | a :: rest =>
    match lastIdxOf c rest with
    | some i => some (i + 1)
    | none => if a = c then some 0 else none

/-- Count of maximal non-whitespace runs: the value of
`s.split(/\s+/).filter(w => w.length > 0).length` used for word counts in
both pipelines. -/
def countTokens : List Char → Bool → Nat
  | [], _ => 0
  | c :: rest, inTok =>
    if wsChar c then countTokens rest false
    else (if inTok then 0 else 1) + countTokens rest true

/-- Word count of a string, as computed by
`content.split(/\s+/).filter(word => word.length > 0).length`. -/
def countWords (s : String) : Nat := countTokens s.data false

/-- JavaScript `a || b` for an optional/possibly-empty string `a` with a
string default `b` (`undefined`, `null` and `""` are falsy). -/
def jsOr (a : Option String) (b : String) : String :=
  match a with
  | some s => if s = "" then b else s
  | none => b

/-- JavaScript `a || b` where both sides are optional strings. -/
def jsOrOpt (a b : Option String) : Option String :=
  match a with
  | some s => if s = "" then b else some s
  | none => b

/-! ## JavaScript double-precision arithmetic

`readingTime` is computed in the source as `Math.ceil((words.length / 200) * 60)`
using IEEE-754 binary64 arithmetic.  Doubles are dyadic rationals, so the
two roundings (the division and the multiplication) are modelled exactly
with integer arithmetic: `roundDiv N D` rounds the rational `N / D` to 53
significant bits with round-half-to-even, returning a mantissa/exponent
pair.  The inputs of interest all lie far inside the normal range. -/

/-- Round `N / D` to the nearest integer, ties to even. -/
def rndiv (N D : Nat) : Nat :=
  let q := N / D
  let r := N % D
  if D < 2 * r then q + 1
  else if 2 * r < D then q
  else if q % 2 = 0 then q else q + 1

/-- Fuel-driven base-2 logarithm (floor) on naturals. -/
def log2Fuel : Nat → Nat → Nat
  | 0, _ => 0
  | fuel + 1, n => if 2 ≤ n then log2Fuel fuel (n / 2) + 1 else 0

/-- Floor of `log2 (N / D)` for positive `N`, valid while `N / D > 2 ^ (-64)`. -/
def qlog2Frac (N D : Nat) : Int :=
  (log2Fuel 300 (N * 2 ^ 64 / D) : Int) - 64

/-- Round the nonnegative rational `N / D` to the nearest binary64 value
(round-half-to-even), returned as mantissa `m` and exponent `e` with value
`m * 2 ^ e`. -/
def roundDiv (N D : Nat) : Nat × Int :=
  if N = 0 then (0, 0)
  else
    let t : Int := 52 - qlog2Frac N D
    if 0 ≤ t then (rndiv (N * 2 ^ t.toNat) D, -t)
    else (rndiv N (D * 2 ^ (-t).toNat), -t)

/-- Ceiling of the dyadic value `m * 2 ^ e` (`Math.ceil` of a nonnegative
double whose ceiling fits the integer range). -/
def ceilDyadic (m : Nat) (e : Int) : Nat :=
  if 0 ≤ e then m * 2 ^ e.toNat
  else (m + 2 ^ (-e).toNat - 1) / 2 ^ (-e).toNat

/-- The exact value of `Math.ceil((w / 200) * 60)` in JavaScript double
arithmetic: w is divided by 200 (one binary64 rounding), the quotient is
multiplied by 60 (a second rounding), and the ceiling is taken. -/
def readingTimeJS (w : Nat) : Nat :=
  let d1 := roundDiv w 200
  let d2 := roundDiv (60 * d1.1) 1
  ceilDyadic d2.1 (d2.2 + d1.2)

/-- The idealized real-arithmetic value `⌈w / 200 * 60⌉ = ⌈3 * w / 10⌉`. -/
def readingTimeExact (w : Nat) : Nat := (3 * w + 9) / 10

/-! ## Content classification -/

/-- The eight declared content categories
(`ExtractedMetadata['contentType']`). -/
inductive ContentType where
  | ARTICLE | BLOG | PDF | YOUTUBE | TWITTER | NEWSLETTER | BOOK | EBOOK
  deriving DecidableEq

/-- The sole output entity of the pipeline (`ExtractedMetadata` in
`contentExtractor.ts`); optional fields are `Option`-valued. -/
structure ExtractedMetadata where
  contentType : ContentType
  title : Option String := none
  description : Option String := none
  favicon : Option String := none
  coverImage : Option String := none
  siteName : Option String := none
  content : Option String := none
  wordCount : Option Nat := none
  readingTime : Option Nat := none
  totalPages : Option Nat := none
  author : Option String := none
  publishedDate : Option String := none
  images : Option (List String) := none
  deriving DecidableEq

/-- `detectContentType` of `contentExtractor.ts`: substring classification
of a URL in priority order. -/
def detectContentType (url : String) : ContentType :=
  let urlLower := toLowerStr url
  if containsSub urlLower "youtube.com" || containsSub urlLower "youtu.be" then .YOUTUBE
  else if containsSub urlLower "twitter.com" || containsSub urlLower "x.com" then .TWITTER
  else if endsWithStr urlLower ".pdf" then .PDF
  else if containsSub urlLower "newsletter" || containsSub urlLower "substack" then .NEWSLETTER
  else .ARTICLE

/-- `fileName.toLowerCase().substring(fileName.lastIndexOf('.'))`: the
(lower-cased) extension including the dot; when the name has no dot,
JavaScript's `substring(-1)` clamps to 0 and the whole lower-cased name is
returned. -/
def extOf (fileName : String) : String :=
  match lastIdxOf '.' fileName.data with
  | some i => ⟨(lowerL fileName.data).drop i⟩
  | none => toLowerStr fileName

/-- `fileName.replace(/\.[^/.]+$/, '')`: drop a trailing `.ext` whose
extension part is nonempty and free of `/` and `.`. -/
def stripExtension (fileName : String) : String :=
  match lastIdxOf '.' fileName.data with
  | some i =>
    let tail := fileName.data.drop (i + 1)
    if tail.length > 0 && tail.all (fun c => c ≠ '/' && c ≠ '.') then
      ⟨fileName.data.take i⟩
    else fileName
  | none => fileName

/-- Extension-table fallback of `detectFileType` (the chain of extension
comparisons reached when the MIME type is absent or unrecognized). -/
def detectFileTypeByExt (extension : String) : ContentType :=
  if extension = ".pdf" then .PDF
  else if extension = ".epub" then .EBOOK
  else if extension = ".docx" ∨ extension = ".doc" then .BOOK
  else if extension = ".md" ∨ extension = ".markdown" then .ARTICLE
  else if extension = ".html" ∨ extension = ".htm" then .ARTICLE
  else if extension = ".txt" then .ARTICLE
  else .ARTICLE

/-- `detectFileType` of `fileProcessor.ts`: MIME table first, then the
extension table. -/
def detectFileType (fileName : String) (mimeType : Option String) : ContentType :=
  let extension := extOf fileName
  match mimeType with
  | some m =>
    if m = "application/pdf" then .PDF
    else if m = "application/epub+zip" then .EBOOK
    else if containsSub m "wordprocessingml" || containsSub m "msword" then .BOOK
    else if m = "text/markdown" then .ARTICLE
    else if m = "text/html" ∨ m = "text/plain" then .ARTICLE
    else detectFileTypeByExt extension
  | none => detectFileTypeByExt extension

/-! ## File-processing pipeline (`fileProcessor.ts`)

Buffers are modelled as their UTF-8 decoding (a `String`), since every use
in the source either hands the raw buffer to a parser library (modelled by
an oracle) or calls `buffer.toString('utf-8')`, which is total.  The
format-parser libraries are oracles: `pdf-parse` and `mammoth` may throw
(`Except.error`); `processEPUB` resolves in every case by construction
(its internal failures are converted to an empty result before the promise
resolves); `processHTML`, `processMD` and `processTXT` have internal
catch-alls and are total. -/

/-- Book-level EPUB metadata after the source's array/first-element
normalization (each field defaulted to `""`). -/
structure EpubMeta where
  title : String
  creator : String
  description : String
  deriving DecidableEq

/-- Result of `processEPUB`: on the `error`/initialization-failure paths
the source resolves with empty content, no `totalPages` and an empty
metadata object (modelled as `none`). -/
structure EpubResult where
  content : String
  totalPages : Option Nat
  metadata : Option EpubMeta
  deriving DecidableEq

/-- The format-parser libraries consumed by `extractContentFromFile`,
as oracles. -/
structure FileOracles where
  pdf : String → Except Unit (String × Nat)
  epub : String → EpubResult
  docx : String → Except Unit String
  html : String → String
  md : String → String

/-- `extractContentFromFile` of `fileProcessor.ts`: classify, dispatch to
the per-format parser inside a `try`, derive word count/reading time and
title, and degrade to a minimal record in the `catch`. -/
def extractContentFromFile (o : FileOracles) (buffer fileName : String)
    (mimeType : Option String) : ExtractedMetadata :=
  let ct := detectFileType fileName mimeType
  let extension := extOf fileName
  let body : Except Unit (String × Option Nat × Option EpubMeta) :=
    match ct with
    | .PDF => (o.pdf buffer).map (fun pr => (pr.1, some pr.2, none))
    | .EBOOK =>
      if extension = ".epub" then
        let er := o.epub buffer
        .ok (er.content, er.totalPages, er.metadata)
      else .ok (buffer, none, none)
    | .BOOK =>
      if extension = ".docx" ∨ extension = ".doc" then
        (o.docx buffer).map (fun c => (c, none, none))
      else .ok (buffer, none, none)
    | _ =>
      if extension = ".html" ∨ extension = ".htm" then .ok (o.html buffer, none, none)
      else if extension = ".md" ∨ extension = ".markdown" then .ok (o.md buffer, none, none)
      else .ok (buffer, none, none)
  match body with
  | .ok (content, totalPages, meta) =>
    let wordCount := countWords content
    let readingTime := readingTimeJS wordCount
    let title :=
      match meta with
      | some m => if m.title = "" then stripExtension fileName else m.title
      | none => stripExtension fileName
    { contentType := ct
      title := some title
      description := meta.map (fun m => m.description)
      content := some content
      wordCount := some wordCount
      readingTime := some readingTime
      totalPages := totalPages
      author := meta.bind (fun m => if m.creator = "" then none else some m.creator) }
  | .error _ =>
    { contentType := ct
      title := some (stripExtension fileName)
      content := some "" }

/-! ## HTML sanitizer (`sanitizeHtml` of `contentExtractor.ts`)

The source applies five global regex replacements in order:
script-block removal, style-block removal, inline event-handler removal,
`javascript:` removal and `data:text/html` removal.  Each replacement
deletes the leftmost-first non-overlapping matches in its input.  The
scanners below implement exactly that match semantics, driven by a fuel
argument equal to the input length so that they compute by kernel
reduction. -/

/-- Case-insensitive `startsW` (the pattern is given lower-case; the
subject is lowered character-wise), the `/i` regex flag. -/
def startsWCI : List Char → List Char → Bool
  | [], _ => true
  | _ :: _, [] => false
  | a :: p', b :: l' => a = lcChar b && startsWCI p' l'

/-- Start of a match of `<tag\b` (case-insensitive): the literal `<tag`
followed by a non-word character or the end of input. -/
def openTagAt (tag : List Char) (cs : List Char) : Bool :=
  startsWCI ('<' :: tag) cs &&
    (match cs.drop (tag.length + 1) with
     | [] => true
     | c :: _ => !wordChar c)

/-- Consume up to and including the first occurrence of `</tag>`
(case-insensitive), returning the remaining suffix.  This is the effective
semantics of `[^<]*(?:(?!<\/tag>)<[^<]*)*<\/tag>`: after the opening, the
match extends to the first subsequent closing tag or fails. -/
def dropThroughCloseTag (tag : List Char) : List Char → Option (List Char)
  | [] => none
  | c :: rest =>
    if startsWCI ('<' :: '/' :: (tag ++ ['>'])) (c :: rest) then
      some ((c :: rest).drop (tag.length + 3))
    else dropThroughCloseTag tag rest

/-- Global replacement of `<tag\b…</tag>` blocks with the empty string
(one left-to-right pass, non-overlapping matches), fuelled. -/
def removeTagBlocksF (tag : List Char) : Nat → List Char → List Char
  | 0, cs => cs
  | _ + 1, [] => []
  | fuel + 1, c :: rest =>
    if openTagAt tag (c :: rest) then
      match dropThroughCloseTag tag ((c :: rest).drop (tag.length + 1)) with
      | some r => removeTagBlocksF tag fuel r
      | none => c :: removeTagBlocksF tag fuel rest
    else c :: removeTagBlocksF tag fuel rest

/-- Does the input contain a `<tag\b…</tag>` block (a position where the
block pattern matches)? -/
def hasTagBlock (tag : List Char) : List Char → Bool
  | [] => false
  | c :: rest =>
    (openTagAt tag (c :: rest) &&
      (dropThroughCloseTag tag ((c :: rest).drop (tag.length + 1))).isSome)
    || hasTagBlock tag rest

/-- Match of `\s*on\w+\s*=\s*["'][^"']*["']` at the head of the input
(case-insensitive), returning the suffix after the match.  Greedy
sub-matches need no backtracking here because the follower of each starred
class is excluded from the class. -/
def matchHandler (cs : List Char) : Option (List Char) :=
  match cs.dropWhile (fun c => wsChar c) with
  | o :: n :: r2 =>
    if lcChar o = 'o' ∧ lcChar n = 'n' then
      let w := r2.takeWhile (fun c => wordChar c)
      let r3 := r2.dropWhile (fun c => wordChar c)
      if w = [] then none
      else
        match r3.dropWhile (fun c => wsChar c) with
        | '=' :: r5 =>
          match r5.dropWhile (fun c => wsChar c) with
          | q :: r7 =>
            if quoteChar q then
              match r7.dropWhile (fun c => !quoteChar c) with
              | _ :: r9 => some r9
              | [] => none
            else none
          | [] => none
        | _ => none
    else none
  | _ => none

/-- Global removal of inline event-handler attributes, fuelled. -/
def removeHandlersF : Nat → List Char → List Char
  | 0, cs => cs
  | _ + 1, [] => []
  | fuel + 1, c :: rest =>
    match matchHandler (c :: rest) with
    | some r => removeHandlersF fuel r
    | none => c :: removeHandlersF fuel rest

/-- Does the handler pattern match at some position of the input? -/
def hasHandler : List Char → Bool
  | [] => false
  | c :: rest => (matchHandler (c :: rest)).isSome || hasHandler rest

/-- Global case-insensitive removal of a fixed literal, fuelled. -/
def removeLitF (lit : List Char) : Nat → List Char → List Char
  | 0, cs => cs
  | _ + 1, [] => []
  | fuel + 1, c :: rest =>
    if startsWCI lit (c :: rest) then removeLitF lit fuel ((c :: rest).drop lit.length)
    else c :: removeLitF lit fuel rest

/-- Does the literal occur (case-insensitively) in the input? -/
def hasLit (lit : List Char) : List Char → Bool
  | [] => false
  | c :: rest => startsWCI lit (c :: rest) || hasLit lit rest

/-- `sanitizeHtml` of `contentExtractor.ts`: the five removal passes in
source order. -/
def sanitizeHtmlL (cs : List Char) : List Char :=
  let s1 := removeTagBlocksF "script".data cs.length cs
  let s2 := removeTagBlocksF "style".data s1.length s1
  let s3 := removeHandlersF s2.length s2
  let s4 := removeLitF "javascript:".data s3.length s3
  removeLitF "data:text/html".data s4.length s4

/-- String-level `sanitizeHtml`. -/
def sanitizeHtml (s : String) : String := ⟨sanitizeHtmlL s.data⟩

/-! ## URL model

Simplified model of the WHATWG `URL` constructor: it accepts
`scheme://host/path…` URLs (the shapes exercised by this pipeline), keeps
the hostname and the pre-query path, and rejects everything else.  Path
normalization of `.`/`..` segments and query/fragment components are out
of scope; the source only relies on scheme/host extraction and
last-segment relative resolution. -/

/-- ASCII letter. -/
def alphaChar (c : Char) : Bool :=
  ('a' ≤ c ∧ c ≤ 'z') ∨ ('A' ≤ c ∧ c ≤ 'Z')

/-- Parsed URL: scheme, hostname (lower-cased, port stripped) and path. -/
structure UrlParts where
  scheme : String
  host : String
  path : String
  deriving DecidableEq

/-- Modelled `new URL(url)`: `none` when the constructor would throw on the
shapes this model covers. -/
def parseUrlModel (url : String) : Option UrlParts :=
  let cs := url.data
  let scheme := cs.takeWhile (fun c => alphaChar c)
  if scheme = [] then none
  else if ¬ startsW [':', '/', '/'] (cs.drop scheme.length) then none
  else
    let rest := cs.drop (scheme.length + 3)
    let auth := rest.takeWhile (fun c => c ≠ '/' ∧ c ≠ '?' ∧ c ≠ '#')
    let hostport :=
      match lastIdxOf '@' auth with
      | some i => auth.drop (i + 1)
      | none => auth
    let host := hostport.takeWhile (fun c => c ≠ ':')
    if host = [] then none
    else
      let pathRest := (rest.drop auth.length).takeWhile (fun c => c ≠ '?' ∧ c ≠ '#')
      let path := if pathRest = [] then ['/'] else pathRest
      some ⟨⟨lowerL scheme⟩, ⟨lowerL host⟩, ⟨path⟩⟩

/-- Serialization of the modelled URL. -/
def urlToString (u : UrlParts) : String :=
  u.scheme ++ "://" ++ u.host ++ u.path

/-- Remove the first occurrence of a pattern (the semantics of
`String.prototype.replace` with a string pattern and empty replacement). -/
def removeFirstOcc (p : List Char) : List Char → List Char
  | [] => []
  | c :: rest =>
    if startsW p (c :: rest) then (c :: rest).drop p.length
    else c :: removeFirstOcc p rest

/-- `extractTitleFromUrl` of `contentExtractor.ts`:
`new URL(url).hostname.replace('www.', '')`, `'Untitled'` when the
constructor throws. -/
def extractTitleFromUrl (url : String) : String :=
  match parseUrlModel url with
  | some u => ⟨removeFirstOcc "www.".data u.host.data⟩
  | none => "Untitled"

/-- Modelled `new URL(ref, base).toString()` for the reference shapes the
image normalizer can produce: absolute references re-parse on their own,
protocol-relative ones adopt the base scheme, path-absolute ones replace
the base path, and plain relative ones replace the last path segment of
the base. -/
def resolveUrlModel (ref : String) (base : UrlParts) : Option String :=
  let cs := ref.data
  let scheme := cs.takeWhile (fun c => alphaChar c)
  if scheme ≠ [] ∧ startsW [':', '/', '/'] (cs.drop scheme.length) then
    (parseUrlModel ref).map urlToString
  else if startsW ['/', '/'] cs then
    (parseUrlModel (base.scheme ++ ":" ++ ref)).map urlToString
  else if startsW ['/'] cs then
    some (base.scheme ++ "://" ++ base.host ++ ref)
  else if cs = [] then
    some (urlToString base)
  else
    let dir :=
      match lastIdxOf '/' base.path.data with
      | some i => base.path.data.take (i + 1)
      | none => ['/']
    some (base.scheme ++ "://" ++ base.host ++ (⟨dir⟩ : String) ++ ref)

/-! ## Image URL normalization and image collection

Both `normalizeImageUrls` and `extractImagesFromHtml` match the pattern
`<img([^>]+)src=["']([^"']+)["']([^>]*)>` (case-insensitive, global).  A
match starts at `<img`; the greedy backtracking of `([^>]+)` selects the
last `src=` candidate inside the `>`-free window after `<img` for which
the quoted-value tail parses. -/

/-- Parse `["']([^"']+)["']([^>]*)>` returning (value, trailing
attributes, suffix after the `>`). -/
def imgTailMatch (cs : List Char) : Option (List Char × List Char × List Char) :=
  match cs with
  | q :: r7 =>
    if quoteChar q then
      let v := r7.takeWhile (fun c => !quoteChar c)
      if v = [] then none
      else
        match r7.dropWhile (fun c => !quoteChar c) with
        | _ :: r9 =>
          let a := r9.takeWhile (fun c => c ≠ '>')
          match r9.dropWhile (fun c => c ≠ '>') with
          | _ :: rest => some (v, a, rest)
          | [] => none
        | [] => none
    else none
  | [] => none

/-- Given the input just after `<img`, locate the full match: `before`
(the `([^>]+)` group), the `src` value, the `([^>]*)` group and the suffix
after the closing `>`.  Greedy `([^>]+)` is realised by taking the last
viable `src=` candidate. -/
def imgFindParts (cs : List Char) : Option (List Char × List Char × List Char × List Char) :=
  let w := cs.takeWhile (fun c => c ≠ '>')
  let valid := (List.range (w.length + 1)).filter
    (fun j => 1 ≤ j && startsWCI ['s', 'r', 'c', '='] (cs.drop j)
      && (imgTailMatch (cs.drop (j + 4))).isSome)
  match valid.getLast? with
  | some j =>
    match imgTailMatch (cs.drop (j + 4)) with
    | some (v, a, rest) => some (cs.take j, v, a, rest)
    | none => none
  | none => none

/-- The callback's skip test: data URLs and already-absolute URLs are left
alone (`src.startsWith('data:') || src.startsWith('http://') ||
src.startsWith('https://')`). -/
def skipImgSrc (v : List Char) : Bool :=
  startsW "data:".data v || startsW "http://".data v || startsW "https://".data v

/-- One global pass of the `<img…src=…>` replacement of
`normalizeImageUrls`, fuelled.  A skipped or unresolvable source keeps the
original matched text; a resolved one is rewritten to
`<img${before}src="${absoluteUrl}"${after}>`. -/
def normalizeImgF (resolve : List Char → Option (List Char)) : Nat → List Char → List Char
  | 0, cs => cs
  | _ + 1, [] => []
  | fuel + 1, c :: rest0 =>
    if startsWCI ['<', 'i', 'm', 'g'] (c :: rest0) then
      match imgFindParts ((c :: rest0).drop 4) with
      | some (before, v, a, rest) =>
        let consumed := (c :: rest0).length - rest.length
        if skipImgSrc v then (c :: rest0).take consumed ++ normalizeImgF resolve fuel rest
        else
          match resolve v with
          | some abs =>
            ('<' :: 'i' :: 'm' :: 'g' ::
              (before ++ ('s' :: 'r' :: 'c' :: '=' :: '"' ::
                (abs ++ ('"' :: (a ++ ['>'])))))) ++ normalizeImgF resolve fuel rest
          | none => (c :: rest0).take consumed ++ normalizeImgF resolve fuel rest
      | none => c :: normalizeImgF resolve fuel rest0
    else c :: normalizeImgF resolve fuel rest0

/-- `normalizeImageUrls` of `contentExtractor.ts`: an invalid base URL
returns the HTML unchanged (the outer catch); otherwise the global img
replacement runs with resolution against the base. -/
def normalizeImageUrls (html baseUrl : String) : String :=
  match parseUrlModel baseUrl with
  | none => html
  | some base =>
    ⟨normalizeImgF (fun v => (resolveUrlModel ⟨v⟩ base).map String.data)
      html.data.length html.data⟩

/-- Collect the `src` values of the `<img…src=…>` matches in order,
fuelled (the scan of `extractImagesFromHtml`). -/
def collectImgsF : Nat → List Char → List String
  | 0, _ => []
  | _ + 1, [] => []
  | fuel + 1, c :: rest0 =>
    if startsWCI ['<', 'i', 'm', 'g'] (c :: rest0) then
      match imgFindParts ((c :: rest0).drop 4) with
      | some (_, v, _, rest) => (⟨v⟩ : String) :: collectImgsF fuel rest
      | none => collectImgsF fuel rest0
    else collectImgsF fuel rest0

/-- `extractImagesFromHtml` of `contentExtractor.ts`: matched sources,
data-URIs skipped, first 10 kept. -/
def extractImagesFromHtml (html : String) : List String :=
  ((collectImgsF html.data.length html.data).filter
    (fun s => !(s = "" || startsW "data:".data s.data))).take 10

/-! ## DOM model

A minimal document tree covering exactly the feature set
`extractContentFallback` uses: tag names, attributes (`class`, `id`,
`role`, …), `querySelector` (pre-order, first match), removal of matching
descendants and `textContent`.  Tag names in documents are taken
lower-case (HTML parsing lower-cases them).  The forest type is a mutual
inductive so that all traversals are structural and compute by kernel
reduction. -/

mutual
inductive DNode where
  | text (s : String)
  | elem (tag : String) (attrs : List (String × String)) (children : DForest)
  deriving DecidableEq
inductive DForest where
  | nil
  | cons (n : DNode) (f : DForest)
  deriving DecidableEq
end

/-- The CSS selector forms used by the source: tag selectors,
`[attr="value"]`, `.class-token` and `[attr*="substring"]`. -/
inductive Sel where
  | tag (t : String)
  | attrEq (name val : String)
  | classTok (c : String)
  | attrContains (name sub : String)
  deriving DecidableEq

/-- First value of the named attribute. -/
def getAttr (attrs : List (String × String)) (name : String) : Option String :=
  (attrs.find? (fun p => p.1 == name)).map (fun p => p.2)

/-- Split on whitespace into tokens (for class-token matching). -/
def splitWsAux : List Char → List Char → List (List Char)
  | [], acc => if acc = [] then [] else [acc.reverse]
  | c :: rest, acc =>
    if wsChar c then
      if acc = [] then splitWsAux rest [] else acc.reverse :: splitWsAux rest []
    else splitWsAux rest (c :: acc)

/-- Class tokens of a `class` attribute value. -/
def classTokens (s : String) : List (List Char) := splitWsAux s.data []

/-- Does the node (when an element) match the selector? -/
def matchesSel (n : DNode) (sel : Sel) : Bool :=
  match n with
  | .text _ => false
  | .elem tag attrs _ =>
    match sel with
    | .tag t => tag == t
    | .attrEq name val => getAttr attrs name == some val
    | .classTok c =>
      match getAttr attrs "class" with
      | some v => (classTokens v).contains c.data
      | none => false
    | .attrContains name sub =>
      match getAttr attrs name with
      | some v => occursIn sub.data v.data
      | none => false

/-- Match against any selector of a comma list. -/
def matchesAny (n : DNode) (sels : List Sel) : Bool :=
  sels.any (fun s => matchesSel n s)

mutual
/-- `querySelector`: pre-order first match (the node itself, then its
children left to right). -/
def qselN (sel : Sel) : DNode → Option DNode
  | .text _ => none
  | .elem t a ch =>
    if matchesSel (.elem t a ch) sel then some (.elem t a ch) else qselF sel ch
/-- `querySelector` over a forest. -/
def qselF (sel : Sel) : DForest → Option DNode
  | .nil => none
  | .cons n f =>
    match qselN sel n with
    | some r => some r
    | none => qselF sel f
end

mutual
/-- Remove every descendant matching one of the selectors (the effect of
`clone.querySelectorAll(…).forEach(el => el.remove())`: nested matches all
end up detached, so the result removes every maximal matching node; the
root itself is never removed because `querySelectorAll` only returns
descendants). -/
def stripN (sels : List Sel) : DNode → DNode
  | .text s => .text s
  | .elem t a ch => .elem t a (stripF sels ch)
/-- Removal over a forest. -/
def stripF (sels : List Sel) : DForest → DForest
  | .nil => .nil
  | .cons n f =>
    if matchesAny n sels then stripF sels f
    else .cons (stripN sels n) (stripF sels f)
end

mutual
/-- `textContent`: concatenation of all descendant text. -/
def textContentN : DNode → String
  | .text s => s
  | .elem _ _ ch => textContentF ch
/-- `textContent` over a forest. -/
def textContentF : DForest → String
  | .nil => ""
  | .cons n f => textContentN n ++ textContentF f
end

/-- `String.prototype.trim` (ASCII whitespace model). -/
def trimStr (s : String) : String :=
  ⟨((s.data.dropWhile (fun c => wsChar c)).reverse.dropWhile (fun c => wsChar c)).reverse⟩

/-- The unwanted-element selector list
`'script, style, nav, header, footer, aside, .ad, .advertisement, [class*="ad"]'`. -/
def unwantedSels : List Sel :=
  [.tag "script", .tag "style", .tag "nav", .tag "header", .tag "footer",
   .tag "aside", .classTok "ad", .classTok "advertisement", .attrContains "class" "ad"]

/-- The ordered container-selector list of `extractContentFallback`. -/
def contentSelList : List Sel :=
  [.tag "article", .attrEq "role" "article", .classTok "content",
   .classTok "post-content", .classTok "entry-content", .classTok "article-content",
   .tag "main", .attrContains "class" "content", .attrContains "id" "content"]

/-- The selector loop of `extractContentFallback`: for each selector in
order, if the document has a match whose cleaned trimmed text exceeds 100
characters, return that text. -/
def fallbackLoop (doc : DNode) : List Sel → Option String
  | [] => none
  | sel :: rest =>
    match qselN sel doc with
    | some el =>
      let t := trimStr (textContentN (stripN unwantedSels el))
      if 100 < t.data.length then some t else fallbackLoop doc rest
    | none => fallbackLoop doc rest

/-- `extractContentFallback` of `contentExtractor.ts`: the selector loop,
then the cleaned (untrimmed) `<body>` text, then `''`. -/
def extractContentFallback (doc : DNode) : String :=
  match fallbackLoop doc contentSelList with
  | some t => t
  | none =>
    match qselN (Sel.tag "body") doc with
    | some body => textContentN (stripN unwantedSels body)
    | none => ""

/-- The fallback algorithm as the specification describes it: an ordered
candidate list (first match of each selector, cleaned of unwanted
descendants, trimmed, kept when longer than 100 characters), the first
candidate wins, and the cleaned body text is the final fallback.  Used to
state the refinement between the source's loop and the specified
behaviour. -/
def fallbackSpec (doc : DNode) : String :=
  let candidates := contentSelList.filterMap fun sel =>
    match qselN sel doc with
    | some el =>
      let t := trimStr (textContentN (stripN unwantedSels el))
      if 100 < t.data.length then some t else none
    | none => none
  match candidates with
  | t :: _ => t
  | [] =>
    match qselN (Sel.tag "body") doc with
    | some body => textContentN (stripN unwantedSels body)
    | none => ""

/-! ## Fetcher (`fetchWithRetry` of `contentExtractor.ts`)

The network is an oracle mapping the attempt index to an outcome.  A
successful response whose body exceeds the size ceiling throws a
`too large` error; an abort (`AbortError`, fired by the 30-second timer)
is rethrown as a timeout; both are terminal.  Every other failure
(connection error or non-2xx status, collapsed into `failure`) stores the
last error, sleeps `RETRY_DELAY_BASE * 2 ^ attempt`, and retries while
attempts remain; after the loop the last error is thrown. -/

/-- Configuration constants of `contentExtractor.ts`. -/
def FETCH_TIMEOUT : Nat := 30000

/-- `MAX_RESPONSE_SIZE = 10 * 1024 * 1024`. -/
def MAX_RESPONSE_SIZE : Nat := 10 * 1024 * 1024

/-- `MAX_RETRIES = 3`. -/
def MAX_RETRIES : Nat := 3

/-- `RETRY_DELAY_BASE = 1000`. -/
def RETRY_DELAY_BASE : Nat := 1000

/-- `CACHE_TTL = 24 * 60 * 60 * 1000`. -/
def CACHE_TTL : Nat := 24 * 60 * 60 * 1000

/-- Outcome of one fetch attempt, as the oracle reports it. -/
inductive FetchOutcome where
  | success (body : String)
  | timeout
  | tooLargeHeader
  | failure
  deriving DecidableEq

/-- The error classes `fetchWithRetry` can throw. -/
inductive FetchErr where
  | timeout
  | tooLarge
  | transient
  deriving DecidableEq

deriving instance DecidableEq for Except

/-- Result of `fetchWithRetry` together with its observable effects:
number of attempts made and the backoff delays slept. -/
structure FetchRes where
  result : Except FetchErr String
  attempts : Nat
  delays : List Nat
  deriving DecidableEq

/-- The attempt loop (`for attempt in 0..retries`), with `left` the number
of loop iterations remaining. -/
def fetchGo (oracle : Nat → FetchOutcome) : Nat → Nat → FetchRes
  | _, 0 => ⟨.error .transient, 0, []⟩
  | attempt, left + 1 =>
    match oracle attempt with
    | .success body =>
      if MAX_RESPONSE_SIZE < body.data.length then ⟨.error .tooLarge, 1, []⟩
      else ⟨.ok body, 1, []⟩
    | .timeout => ⟨.error .timeout, 1, []⟩
    | .tooLargeHeader => ⟨.error .tooLarge, 1, []⟩
    | .failure =>
      if left = 0 then ⟨.error .transient, 1, []⟩
      else
        let r := fetchGo oracle (attempt + 1) left
        ⟨r.result, r.attempts + 1, (RETRY_DELAY_BASE * 2 ^ attempt) :: r.delays⟩

/-- `fetchWithRetry(url, retries)`: attempts `0 … retries`. -/
def fetchWithRetry (oracle : Nat → FetchOutcome) (retries : Nat) : FetchRes :=
  fetchGo oracle 0 (retries + 1)

/-! ## URL extraction pipeline (`extractContent` of `contentExtractor.ts`)

External collaborators are gathered in `PipelineEnv`: JSDOM parsing, the
Readability library, the DOM-walking token wrapper, the ordered-selector
metadata extractors (pure functions of the parsed document, not otherwise
constrained by the claims under verification) and the YouTube/Twitter
adapters, which always force their respective `contentType` and never set
word counts but whose other fields and network usage are free. -/

/-- What `reader.parse()` did: threw, returned `null`, or returned an
article (`title`, `content`, `textContent` nullable as in the library). -/
inductive ReadabilityOutcome where
  | throws
  | noArticle
  | article (title : Option String) (content : Option String) (textContent : Option String)
  deriving DecidableEq

/-- The metadata fields an adapter (YouTube/Twitter) may fill. -/
structure AdapterFields where
  title : Option String
  description : Option String
  coverImage : Option String
  siteName : Option String
  author : Option String
  deriving DecidableEq

/-- Environment of external collaborators for the URL pipeline. -/
structure PipelineEnv where
  parseHtml : String → DNode
  readability : DNode → ReadabilityOutcome
  wrapTokens : String → String
  docTitle : DNode → Option String
  docDescription : DNode → Option String
  docFavicon : DNode → String → Option String
  docCoverImage : DNode → Option String
  docSiteName : DNode → Option String
  docAuthor : DNode → Option String
  docPublishedDate : DNode → Option String
  youtube : String → AdapterFields × Nat
  twitter : String → AdapterFields × Nat

/-- The test `/<[a-z][\s\S]*>/i.test(s)`: a `<` followed by a letter, with
a `>` somewhere after. -/
def htmlTagTest : List Char → Bool
  | [] => false
  | '<' :: c :: rest => (alphaChar c && rest.contains '>') || htmlTagTest (c :: rest)
  | _ :: rest => htmlTagTest rest

/-- One entry of the in-memory content cache. -/
structure CacheEntry where
  data : ExtractedMetadata
  timestamp : Nat
  deriving DecidableEq

/-- The `contentCache` map, keyed by the exact URL string. -/
abbrev ContentCache := List (String × CacheEntry)

/-- `contentCache.get(url)`. -/
def cacheGet (cache : ContentCache) (url : String) : Option CacheEntry :=
  (cache.find? (fun p => p.1 == url)).map (fun p => p.2)

/-- `contentCache.set(url, {data, timestamp: now})` (overwrite). -/
def cacheSet (cache : ContentCache) (url : String) (e : CacheEntry) : ContentCache :=
  (url, e) :: cache.filter (fun p => p.1 ≠ url)

/-- A pipeline call's result together with its observable effects: the
cache afterwards, the number of network-fetch activities triggered and the
number of `fetchWithRetry` attempts made on the main path. -/
structure PipelineResult where
  metadata : ExtractedMetadata
  cache : ContentCache
  fetchCalls : Nat
  attempts : Nat
  deriving DecidableEq

/-- What the body of `extractContent` (the code inside its outer `try`)
can throw. -/
inductive ExtractErr where
  | invalidUrl
  | fetch (e : FetchErr)
  deriving DecidableEq

/-- A thrown body error, carrying the network effects that happened before
the throw. -/
structure BodyErr where
  err : ExtractErr
  fetchCalls : Nat
  attempts : Nat
  deriving DecidableEq

/-- The fresh (post-cache-check) part of `extractContent`'s body:
classification, adapters, fetch, parse, metadata assembly, Readability
with fallback-on-throw, word-count/reading-time derivation, and the cache
write. -/
def extractFresh (env : PipelineEnv) (oracle : Nat → FetchOutcome)
    (url : String) (useCache : Bool) (cache : ContentCache) (now : Nat) :
    Except BodyErr PipelineResult :=
      let ct := detectContentType url
      if ct = .YOUTUBE then
        let yt := env.youtube url
        let md : ExtractedMetadata :=
          { contentType := .YOUTUBE, title := yt.1.title, description := yt.1.description,
            coverImage := yt.1.coverImage, siteName := yt.1.siteName, author := yt.1.author }
        .ok ⟨md, (if useCache then cacheSet cache url ⟨md, now⟩ else cache), yt.2, 0⟩
      else if ct = .TWITTER then
        let tw := env.twitter url
        let md : ExtractedMetadata :=
          { contentType := .TWITTER, title := tw.1.title, description := tw.1.description,
            coverImage := tw.1.coverImage, siteName := tw.1.siteName, author := tw.1.author }
        .ok ⟨md, (if useCache then cacheSet cache url ⟨md, now⟩ else cache), tw.2, 0⟩
      else
        let totalPages : Option Nat := none
        let fr := fetchWithRetry oracle MAX_RETRIES
        match fr.result with
        | .error e => .error ⟨.fetch e, 1, fr.attempts⟩
        | .ok html =>
          let doc := env.parseHtml html
          let md0 : ExtractedMetadata :=
            { contentType := ct
              title := env.docTitle doc
              description := env.docDescription doc
              favicon := env.docFavicon doc url
              coverImage := env.docCoverImage doc
              siteName := env.docSiteName doc
              totalPages := totalPages
              author := env.docAuthor doc
              publishedDate := env.docPublishedDate doc }
          let md :=
            match env.readability doc with
            | .throws =>
              let c := extractContentFallback doc
              let md1 := { md0 with content := some c }
              if c ≠ "" then
                { md1 with wordCount := some (countWords c),
                           readingTime := some (readingTimeJS (countWords c)) }
              else md1
            | .noArticle => md0
            | .article t c tc =>
              let s0 := sanitizeHtml (jsOr c "")
              let s1 := normalizeImageUrls s0 url
              let s2 := if s1 ≠ "" && htmlTagTest s1.data then env.wrapTokens s1 else s1
              let contentStr := if s2 ≠ "" then s2 else jsOr tc ""
              let md1 := { md0 with
                content := some contentStr
                title := jsOrOpt t md0.title
                images :=
                  match c with
                  | some cc => if cc ≠ "" then some (extractImagesFromHtml cc) else md0.images
                  | none => md0.images }
              let tcS := jsOr tc ""
              if tcS ≠ "" then
                { md1 with wordCount := some (countWords tcS),
                           readingTime := some (readingTimeJS (countWords tcS)) }
              else md1
          .ok ⟨md, (if useCache then cacheSet cache url ⟨md, now⟩ else cache), 1, fr.attempts⟩

/-- The body of `extractContent` (lines inside the outer `try`): URL
validation, cache lookup, then the fresh pipeline. -/
def extractContentBody (env : PipelineEnv) (oracle : Nat → FetchOutcome)
    (url : String) (useCache : Bool) (cache : ContentCache) (now : Nat) :
    Except BodyErr PipelineResult :=
  if (parseUrlModel url).isNone then .error ⟨.invalidUrl, 0, 0⟩
  else
    let hit : Option ExtractedMetadata :=
      if useCache then
        match cacheGet cache url with
        | some e => if now - e.timestamp < CACHE_TTL then some e.data else none
        | none => none
      else none
    match hit with
    | some d => .ok ⟨d, cache, 0, 0⟩
    | none => extractFresh env oracle url useCache cache now

/-- `extractContent` as exported: the outer `try`/`catch`.  Every thrown
body error — the invalid-URL error included — is caught and converted to
the minimal record `{contentType, title: hostname-derived}`; nothing is
written to the cache on that path. -/
def extractContent (env : PipelineEnv) (oracle : Nat → FetchOutcome)
    (url : String) (useCache : Bool) (cache : ContentCache) (now : Nat) :
    PipelineResult :=
  match extractContentBody env oracle url useCache cache now with
  | .ok r => r
  | .error be =>
    ⟨{ contentType := detectContentType url, title := some (extractTitleFromUrl url) },
     cache, be.fetchCalls, be.attempts⟩

/-- Two sequential `extractContent` calls for the same URL (the cache of
the first feeds the second). -/
def extractTwice (env : PipelineEnv) (oracle1 oracle2 : Nat → FetchOutcome)
    (url : String) (useCache : Bool) (cache : ContentCache) (now1 now2 : Nat) :
    PipelineResult × PipelineResult :=
  let r1 := extractContent env oracle1 url useCache cache now1
  let r2 := extractContent env oracle2 url useCache r1.cache now2
  (r1, r2)

/-! ## Invariant definitions and concrete fixtures -/

/-- Structural facts every freshly computed pipeline record satisfies:
the content type is the URL classification, and word count/reading time
are absent together or derived together from some text. -/
def mdOk (md : ExtractedMetadata) (url : String) : Prop :=
  md.contentType = detectContentType url ∧
  ((md.wordCount = none ∧ md.readingTime = none) ∨
   ∃ t : String, md.wordCount = some (countWords t) ∧
     md.readingTime = some (readingTimeJS (countWords t)))

/-- The word-count/reading-time coupling of a metadata record: both absent
together, and reading time is the double-precision evaluation of the
formula at the word count. -/
def wcInv (md : ExtractedMetadata) : Prop :=
  (md.wordCount = none ↔ md.readingTime = none) ∧
  (∀ w, md.wordCount = some w → md.readingTime = some (readingTimeJS w))

/-- Every cache entry's content type is the classification of its key
(true of every entry the pipeline ever writes). -/
def cacheTyped (cache : ContentCache) : Prop :=
  ∀ p ∈ cache, p.2.data.contentType = detectContentType p.1

/-- Every cache entry satisfies the word-count coupling. -/
def cacheWc (cache : ContentCache) : Prop :=
  ∀ p ∈ cache, wcInv p.2.data

/-- Adapter fields with nothing filled. -/
def emptyFields : AdapterFields := ⟨none, none, none, none, none⟩

/-- A trivial environment for closed evaluations: an empty document, a
Readability that returns `null`, identity token wrapping, no metadata
matches, adapters that use one network call and fill nothing. -/
def trivialEnv : PipelineEnv :=
  { parseHtml := fun _ => .elem "html" [] .nil
    readability := fun _ => .noArticle
    wrapTokens := fun s => s
    docTitle := fun _ => none
    docDescription := fun _ => none
    docFavicon := fun _ _ => none
    docCoverImage := fun _ => none
    docSiteName := fun _ => none
    docAuthor := fun _ => none
    docPublishedDate := fun _ => none
    youtube := fun _ => (emptyFields, 1)
    twitter := fun _ => (emptyFields, 1) }

/-- Network oracle: every attempt is a connection failure. -/
def oracleFail : Nat → FetchOutcome := fun _ => .failure

/-- Network oracle: every attempt times out. -/
def oracleTimeout : Nat → FetchOutcome := fun _ => .timeout

/-- Network oracle: every attempt succeeds with a small page. -/
def oracleOk : Nat → FetchOutcome := fun _ => .success "<p>ok</p>"

/-- Network oracle: one connection failure, then an oversized
content-length header. -/
def oracleFailThenLarge : Nat → FetchOutcome :=
  fun n => if n = 0 then .failure else .tooLargeHeader

/-- A response body one byte over the 10 MB ceiling. -/
def bigBody : String := ⟨List.replicate (MAX_RESPONSE_SIZE + 1) 'a'⟩

/-- Network oracle: every attempt succeeds but the body is oversized. -/
def oracleBig : Nat → FetchOutcome := fun _ => .success bigBody

/-- File-parser oracles whose fallible parsers (pdf-parse, mammoth) all
throw. -/
def failingOracles : FileOracles :=
  { pdf := fun _ => .error ()
    epub := fun _ => ⟨"", none, none⟩
    docx := fun _ => .error ()
    html := fun b => b
    md := fun b => b }

/-- A paragraph comfortably longer than 100 characters for the fallback
threshold. -/
def longText : String :=
  "The quick brown fox jumps over the lazy dog while the patient grey owl watches from a very tall oak tree nearby, far beyond the river."

/-- A document whose `<article>` element holds `longText`. -/
def docC4 : DNode :=
  .elem "html" []
    (.cons (.elem "body" []
      (.cons (.elem "article" [] (.cons (.text longText) .nil)) .nil)) .nil)

/-- Environment whose parser yields `docC4` and whose Readability returns
`null` without throwing. -/
def envC4 : PipelineEnv :=
  { trivialEnv with parseHtml := fun _ => docC4 }

/-- Environment like `envC4` but whose Readability throws. -/
def envC4throws : PipelineEnv :=
  { envC4 with readability := fun _ => .throws }

/-- `"a a a … a"` with `n` tokens. -/
def aWords : Nat → List Char
  | 0 => []
  | 1 => ['a']
  | n + 2 => 'a' :: ' ' :: aWords (n + 1)

/-- A text buffer of exactly 830 whitespace-separated words. -/
def words830 : String := ⟨aWords 830⟩

/-- A canonical single-`src` image tag `<img src="…">` used to state the
universal behaviour of `normalizeImageUrls` over arbitrary source
values. -/
def imgTag (src : List Char) : String :=
  ⟨'<' :: 'i' :: 'm' :: 'g' :: ' ' :: 's' :: 'r' :: 'c' :: '=' :: '"' :: (src ++ ['"', '>'])⟩

/-! ## Theorems -/

/-- The URL classifier only ever returns one of its five listed
categories; `BLOG`, `BOOK` and `EBOOK` are unreachable from URLs. -/
theorem detectContentType_mem (url : String) :
    detectContentType url = .YOUTUBE ∨ detectContentType url = .TWITTER ∨
    detectContentType url = .PDF ∨ detectContentType url = .NEWSLETTER ∨
    detectContentType url = .ARTICLE := by
  simp only [detectContentType]
  split_ifs
  all_goals simp

/-- The extension table never yields `BLOG`. -/
theorem detectFileTypeByExt_ne_BLOG (extension : String) :
    detectFileTypeByExt extension ≠ .BLOG := by
  simp only [detectFileTypeByExt]
  split_ifs
  all_goals simp

/-- The file classifier never yields `BLOG`. -/
theorem detectFileType_ne_BLOG (fileName : String) (mimeType : Option String) :
    detectFileType fileName mimeType ≠ .BLOG := by
  rcases mimeType with _ | m
  · simp only [detectFileType]
    exact detectFileTypeByExt_ne_BLOG _
  · simp only [detectFileType]
    split_ifs
    all_goals first
      | exact detectFileTypeByExt_ne_BLOG _
      | simp

/-- `aWords n` counts as `n` tokens. -/
theorem countTokens_aWords : ∀ n, countTokens (aWords n) false = n := by
  intro n
  induction n using aWords.induct with
  | case1 => rfl
  | case2 => rfl
  | case3 n ih =>
    show countTokens ('a' :: ' ' :: aWords (n + 1)) false = n + 2
    have h1 : wsChar 'a' = false := by decide
    have h2 : wsChar ' ' = true := by decide
    simp only [countTokens, h1, h2, Bool.false_eq_true, if_false, if_true, ih]
    omega

/-- C6: `extractFromFile` (`extractContentFromFile`) never raises for any
buffer/fileName/mimeType input — in the model it is a total function whose
only failure handling is the final `catch`; any internal parser failure
(pdf-parse or mammoth throwing) degrades to the record
`{contentType, title: filename-without-extension, content: ''}`; and a
zero-byte buffer named `"empty.txt"` returns
`{contentType: ARTICLE, content: ""}` (with a zero word count and reading
time) without raising. -/
theorem C6_file_extraction_never_raises :
    (∀ (o : FileOracles) (buffer fileName : String) (mimeType : Option String),
      (detectFileType fileName mimeType = .PDF ∧ o.pdf buffer = .error ()) ∨
        (detectFileType fileName mimeType = .BOOK ∧
          (extOf fileName = ".docx" ∨ extOf fileName = ".doc") ∧
          o.docx buffer = .error ()) →
      extractContentFromFile o buffer fileName mimeType =
        { contentType := detectFileType fileName mimeType
          title := some (stripExtension fileName)
          content := some "" }) ∧
    (∀ o : FileOracles,
      extractContentFromFile o "" "empty.txt" none =
        { contentType := .ARTICLE, title := some "empty", content := some "",
          wordCount := some 0, readingTime := some 0 }) := by
  constructor
  · intro o buffer fileName mimeType h
    rcases h with ⟨h1, h2⟩ | ⟨h1, h3, h2⟩
    · simp [extractContentFromFile, h1, h2, Except.map]
    · rcases h3 with h3 | h3 <;> simp [extractContentFromFile, h1, h2, h3, Except.map]
  · intro o
    rfl

/-- Witness for C6: concrete failing PDF parse degrades to the minimal
record, and the zero-byte `empty.txt` example. -/
theorem C6_witness :
    extractContentFromFile failingOracles "x" "doc.pdf" none =
      { contentType := .PDF, title := some "doc", content := some "" } ∧
    extractContentFromFile failingOracles "" "empty.txt" none =
      { contentType := .ARTICLE, title := some "empty", content := some "",
        wordCount := some 0, readingTime := some 0 } :=
  ⟨(C6_file_extraction_never_raises).1 failingOracles "x" "doc.pdf" none
      (Or.inl ⟨by decide, rfl⟩),
   (C6_file_extraction_never_raises).2 failingOracles⟩

/-- Counterexample to C7 as stated: `https://youtube.com/paper.pdf` ends
in `.pdf` yet classifies as `YOUTUBE` (the youtube-substring rule fires
first), and the pipeline's returned record carries `YOUTUBE`, not `PDF`. -/
theorem C7_counterexample :
    endsWithStr (toLowerStr "https://youtube.com/paper.pdf") ".pdf" = true ∧
    detectContentType "https://youtube.com/paper.pdf" = .YOUTUBE ∧
    (extractContent trivialEnv oracleOk "https://youtube.com/paper.pdf"
        true [] 0).metadata.contentType ≠ .PDF := by
  refine ⟨by decide, by decide, by decide⟩

/-- Every fresh pipeline computation either throws or returns a record
satisfying `mdOk`, writing the cache exactly when `useCache` is set. -/
theorem extractFresh_cases (env : PipelineEnv) (oracle : Nat → FetchOutcome)
    (url : String) (uc : Bool) (cache : ContentCache) (now : Nat) :
    (∃ be, extractFresh env oracle url uc cache now = .error be) ∨
    (∃ r, extractFresh env oracle url uc cache now = .ok r ∧
      mdOk r.metadata url ∧
      r.cache = (if uc then cacheSet cache url ⟨r.metadata, now⟩ else cache)) := by
  rcases hE : extractFresh env oracle url uc cache now with be | r
  · exact Or.inl ⟨be, rfl⟩
  · right
    refine ⟨r, rfl, ?_⟩
    simp only [extractFresh] at hE
    by_cases hyt : detectContentType url = .YOUTUBE
    · rw [if_pos hyt, Except.ok.injEq] at hE
      subst hE
      exact ⟨⟨hyt.symm, Or.inl ⟨rfl, rfl⟩⟩, rfl⟩
    · rw [if_neg hyt] at hE
      by_cases htw : detectContentType url = .TWITTER
      · rw [if_pos htw, Except.ok.injEq] at hE
        subst hE
        exact ⟨⟨htw.symm, Or.inl ⟨rfl, rfl⟩⟩, rfl⟩
      · rw [if_neg htw] at hE
        rcases hres : (fetchWithRetry oracle MAX_RETRIES).result with e | html
        · rw [hres] at hE
          dsimp only at hE
          exact absurd hE (by simp)
        · rw [hres] at hE
          dsimp only at hE
          simp only [ne_eq] at hE
          rcases hr : env.readability (env.parseHtml html) with _ | _ | ⟨t, c, tc⟩
          · rw [hr] at hE
            dsimp only at hE
            by_cases hc : extractContentFallback (env.parseHtml html) = ""
            · rw [if_neg (not_not_intro hc), Except.ok.injEq] at hE
              subst hE
              exact ⟨⟨rfl, Or.inl ⟨rfl, rfl⟩⟩, rfl⟩
            · rw [if_pos hc, Except.ok.injEq] at hE
              subst hE
              exact ⟨⟨rfl, Or.inr ⟨_, rfl, rfl⟩⟩, rfl⟩
          · rw [hr, Except.ok.injEq] at hE
            subst hE
            exact ⟨⟨rfl, Or.inl ⟨rfl, rfl⟩⟩, rfl⟩
          · rw [hr] at hE
            dsimp only at hE
            by_cases htc : jsOr tc "" = ""
            · rw [if_neg (not_not_intro htc), Except.ok.injEq] at hE
              subst hE
              exact ⟨⟨rfl, Or.inl ⟨rfl, rfl⟩⟩, rfl⟩
            · rw [if_pos htc, Except.ok.injEq] at hE
              subst hE
              exact ⟨⟨rfl, Or.inr ⟨_, rfl, rfl⟩⟩, rfl⟩

/-- When the body reduces to the fresh pipeline, the full call satisfies
`mdOk` and either leaves the cache alone or overwrites the URL's entry. -/
theorem extractContent_fresh_case (env : PipelineEnv) (oracle : Nat → FetchOutcome)
    (url : String) (uc : Bool) (cache : ContentCache) (now : Nat)
    (hbody : extractContentBody env oracle url uc cache now =
      extractFresh env oracle url uc cache now) :
    mdOk (extractContent env oracle url uc cache now).metadata url ∧
      ((extractContent env oracle url uc cache now).cache = cache ∨
       (extractContent env oracle url uc cache now).cache =
         cacheSet cache url
           ⟨(extractContent env oracle url uc cache now).metadata, now⟩) := by
  rcases extractFresh_cases env oracle url uc cache now with ⟨be, hf⟩ | ⟨r, hf, hmd, hcache⟩
  · have hout : extractContent env oracle url uc cache now =
        ⟨{ contentType := detectContentType url, title := some (extractTitleFromUrl url) },
          cache, be.fetchCalls, be.attempts⟩ := by
      simp only [extractContent, hbody, hf]
    rw [hout]
    exact ⟨⟨rfl, Or.inl ⟨rfl, rfl⟩⟩, Or.inl rfl⟩
  · simp only [extractContent, hbody, hf]
    refine ⟨hmd, ?_⟩
    rcases uc with _ | _
    · simp only [Bool.false_eq_true, if_false] at hcache
      exact Or.inl hcache
    · simp only [if_true] at hcache
      exact Or.inr hcache

/-- Case analysis of a full `extractContent` call: a fresh cache hit
returned verbatim with no network activity and no cache change, or a
record satisfying `mdOk` with the cache untouched or overwritten. -/
theorem extractContent_cases (env : PipelineEnv) (oracle : Nat → FetchOutcome)
    (url : String) (uc : Bool) (cache : ContentCache) (now : Nat) :
    (∃ e, cacheGet cache url = some e ∧
      extractContent env oracle url uc cache now = ⟨e.data, cache, 0, 0⟩) ∨
    (mdOk (extractContent env oracle url uc cache now).metadata url ∧
      ((extractContent env oracle url uc cache now).cache = cache ∨
       (extractContent env oracle url uc cache now).cache =
         cacheSet cache url
           ⟨(extractContent env oracle url uc cache now).metadata, now⟩)) := by
  by_cases hv : (parseUrlModel url).isNone
  · right
    have hbody : extractContentBody env oracle url uc cache now = .error ⟨.invalidUrl, 0, 0⟩ := by
      simp [extractContentBody, hv]
    have hout : extractContent env oracle url uc cache now =
        ⟨{ contentType := detectContentType url, title := some (extractTitleFromUrl url) },
          cache, 0, 0⟩ := by
      simp only [extractContent, hbody]
    rw [hout]
    exact ⟨⟨rfl, Or.inl ⟨rfl, rfl⟩⟩, Or.inl rfl⟩
  · by_cases huc : uc = true
    · rcases hg : cacheGet cache url with _ | e
      · exact Or.inr (extractContent_fresh_case env oracle url uc cache now
          (by simp [extractContentBody, hv, huc, hg]))
      · by_cases httl : now - e.timestamp < CACHE_TTL
        · left
          have hout : extractContent env oracle url uc cache now = ⟨e.data, cache, 0, 0⟩ := by
            simp [extractContent, extractContentBody, hv, huc, hg, httl]
          exact ⟨e, rfl, hout⟩
        · exact Or.inr (extractContent_fresh_case env oracle url uc cache now
            (by simp [extractContentBody, hv, huc, hg, httl]))
    · exact Or.inr (extractContent_fresh_case env oracle url uc cache now
        (by simp [extractContentBody, hv, huc]))

/-- A cache lookup hit comes from an entry of the cache stored under
exactly that URL. -/
theorem cacheGet_mem {cache : ContentCache} {url : String} {e : CacheEntry}
    (h : cacheGet cache url = some e) : (url, e) ∈ cache := by
  unfold cacheGet at h
  rcases hfind : cache.find? (fun p => p.1 == url) with _ | p
  · rw [hfind] at h
    simp at h
  · rw [hfind] at h
    simp only [Option.map_some'] at h
    have hp : (p.1 == url) = true := by
      have := List.find?_some hfind
      simpa using this
    have hmem : p ∈ cache := List.mem_of_find?_eq_some hfind
    have h1 : p.1 = url := by simpa using hp
    have h2 : p.2 = e := by simpa using h
    have : (url, e) = p := by
      rcases p with ⟨a, b⟩
      simp only at h1 h2
      rw [h1, h2]
    rw [this]
    exact hmem

/-- Membership in an overwritten cache: the new entry or an old one. -/
theorem mem_cacheSet {cache : ContentCache} {url : String} {e : CacheEntry}
    {p : String × CacheEntry} (h : p ∈ cacheSet cache url e) :
    p = (url, e) ∨ p ∈ cache := by
  unfold cacheSet at h
  rcases List.mem_cons.mp h with h1 | h1
  · exact Or.inl h1
  · exact Or.inr (List.mem_of_mem_filter h1)

/-- Both outcome shapes of `extractContentFromFile`: the catch's minimal
record, or the full success record derived from the parsed content. -/
theorem extractContentFromFile_shape (o : FileOracles) (buffer fileName : String)
    (mimeType : Option String) :
    (extractContentFromFile o buffer fileName mimeType =
      { contentType := detectFileType fileName mimeType
        title := some (stripExtension fileName), content := some "" }) ∨
    (∃ content totalPages meta,
      extractContentFromFile o buffer fileName mimeType =
      { contentType := detectFileType fileName mimeType
        title := some (match meta with
          | some m => if EpubMeta.title m = "" then stripExtension fileName else EpubMeta.title m
          | none => stripExtension fileName)
        description := Option.map (fun m => EpubMeta.description m) meta
        content := some content
        wordCount := some (countWords content)
        readingTime := some (readingTimeJS (countWords content))
        totalPages := totalPages
        author := meta.bind (fun m => if EpubMeta.creator m = "" then none else some (EpubMeta.creator m)) }) := by
  simp only [extractContentFromFile]
  split
  case _ content totalPages meta _ => exact Or.inr ⟨content, totalPages, meta, rfl⟩
  case _ => exact Or.inl rfl

/-- C10: although `BLOG` is one of the 8 declared `contentType`
categories, no classification path ever produces it: `detectContentType`
and `detectFileType` never return `BLOG`, no `extractContentFromFile`
result carries it, and no `extractContent` result carries it (given a
cache whose entries, all written by these same paths, are `BLOG`-free);
the output cache stays `BLOG`-free. -/
theorem C10_blog_never_produced :
    (∀ url : String, detectContentType url ≠ .BLOG) ∧
    (∀ (fileName : String) (mimeType : Option String),
      detectFileType fileName mimeType ≠ .BLOG) ∧
    (∀ (o : FileOracles) (buffer fileName : String) (mimeType : Option String),
      (extractContentFromFile o buffer fileName mimeType).contentType ≠ .BLOG) ∧
    (∀ (env : PipelineEnv) (oracle : Nat → FetchOutcome) (url : String)
       (uc : Bool) (cache : ContentCache) (now : Nat),
      (∀ p ∈ cache, p.2.data.contentType ≠ ContentType.BLOG) →
      (extractContent env oracle url uc cache now).metadata.contentType ≠ .BLOG ∧
      (∀ p ∈ (extractContent env oracle url uc cache now).cache,
        p.2.data.contentType ≠ ContentType.BLOG)) := by
  have hurl : ∀ url : String, detectContentType url ≠ .BLOG := by
    intro url
    rcases detectContentType_mem url with h | h | h | h | h <;> simp [h]
  refine ⟨hurl, detectFileType_ne_BLOG, ?_, ?_⟩
  · intro o buffer fileName mimeType
    rcases extractContentFromFile_shape o buffer fileName mimeType with h | ⟨c, tp, meta, h⟩
    · rw [h]
      exact detectFileType_ne_BLOG fileName mimeType
    · rw [h]
      exact detectFileType_ne_BLOG fileName mimeType
  · intro env oracle url uc cache now hc
    rcases extractContent_cases env oracle url uc cache now with
      ⟨e, hg, hout⟩ | ⟨hmd, hcache⟩
    · rw [hout]
      exact ⟨hc _ (cacheGet_mem hg), hc⟩
    · refine ⟨hmd.1 ▸ hurl url, ?_⟩
      rcases hcache with h | h
      · rw [h]
        exact hc
      · rw [h]
        intro p hp
        rcases mem_cacheSet hp with h1 | h1
        · rw [h1]
          exact hmd.1 ▸ hurl url
        · exact hc p h1

/-- Witness for C10's hypotheses at concrete inputs: a URL extraction over
the empty cache and a file extraction, neither yielding `BLOG`. -/
theorem C10_witness :
    (extractContent trivialEnv oracleOk "https://example.com/a" true [] 0).metadata.contentType
        ≠ .BLOG ∧
    (extractContentFromFile failingOracles "" "a.txt" none).contentType ≠ .BLOG :=
  ⟨(C10_blog_never_produced.2.2.2 trivialEnv oracleOk "https://example.com/a" true [] 0
      (by intro p hp; simp at hp)).1,
   C10_blog_never_produced.2.2.1 failingOracles "" "a.txt" none⟩

/-- C7 (amended): the classifier matches in priority order, so a URL
ending in `.pdf` classifies as `PDF` provided no earlier substring rule
(youtube/twitter) matched, and then every `extractContent` result for it
carries `PDF` regardless of the fetch outcome (the oracle is universally
quantified), given a cache whose entries carry their keys'
classification. -/
theorem C7_pdf_suffix_classification :
    (∀ url : String,
      endsWithStr (toLowerStr url) ".pdf" = true →
      containsSub (toLowerStr url) "youtube.com" = false →
      containsSub (toLowerStr url) "youtu.be" = false →
      containsSub (toLowerStr url) "twitter.com" = false →
      containsSub (toLowerStr url) "x.com" = false →
      detectContentType url = .PDF) ∧
    (∀ (env : PipelineEnv) (oracle : Nat → FetchOutcome) (url : String)
       (uc : Bool) (cache : ContentCache) (now : Nat),
      detectContentType url = .PDF →
      (∀ p ∈ cache, p.2.data.contentType = detectContentType p.1) →
      (extractContent env oracle url uc cache now).metadata.contentType = .PDF) := by
  constructor
  · intro url hpdf h1 h2 h3 h4
    simp [detectContentType, h1, h2, h3, h4, hpdf]
  · intro env oracle url uc cache now hpdf hc
    rcases extractContent_cases env oracle url uc cache now with
      ⟨e, hg, hout⟩ | ⟨hmd, _⟩
    · rw [hout]
      have := hc _ (cacheGet_mem hg)
      simpa [hpdf] using this
    · rw [hmd.1]
      exact hpdf

/-- Witness for C7's amended statement: a plain `.pdf` URL classifies as
`PDF` and the pipeline's record carries `PDF` even when every fetch
attempt fails. -/
theorem C7_witness :
    detectContentType "https://example.com/paper.pdf" = .PDF ∧
    (extractContent trivialEnv oracleFail "https://example.com/paper.pdf"
      true [] 0).metadata.contentType = .PDF :=
  ⟨C7_pdf_suffix_classification.1 "https://example.com/paper.pdf"
      (by decide) (by decide) (by decide) (by decide) (by decide),
   C7_pdf_suffix_classification.2 trivialEnv oracleFail "https://example.com/paper.pdf"
      true [] 0
      (C7_pdf_suffix_classification.1 "https://example.com/paper.pdf"
        (by decide) (by decide) (by decide) (by decide) (by decide))
      (by intro p hp; simp at hp)⟩

set_option maxRecDepth 10000 in
/-- Counterexample to C5 as stated: a text file of exactly 830 words gets
`readingTime = 250`, because the source evaluates
`Math.ceil((830 / 200) * 60)` in binary64 arithmetic where
`(830 / 200) * 60` rounds to `249.00000000000003`, while the claim's exact
formula gives `⌈830 / 200 * 60⌉ = 249`. -/
theorem C5_counterexample :
    (extractContentFromFile failingOracles words830 "words.txt" none).wordCount = some 830 ∧
    (extractContentFromFile failingOracles words830 "words.txt" none).readingTime = some 250 ∧
    readingTimeExact 830 = 249 ∧ (250 : Nat) ≠ 249 := by
  have hcw : countWords words830 = 830 := countTokens_aWords 830
  have hb : extractContentFromFile failingOracles words830 "words.txt" none =
      { contentType := .ARTICLE, title := some "words", content := some words830,
        wordCount := some (countWords words830),
        readingTime := some (readingTimeJS (countWords words830)) } := rfl
  rw [hb, hcw]
  refine ⟨rfl, ?_, by decide, by decide⟩
  have : readingTimeJS 830 = 250 := by decide
  simp [this]

/-- C5 (amended): in every record produced by `extractContent` (over a
cache whose entries satisfy the same coupling) or by
`extractContentFromFile`, `wordCount` and `readingTime` are present
together or absent together, and `readingTime` is the binary64 evaluation
of `Math.ceil((wordCount / 200) * 60)` — which equals the exact
`⌈wordCount/200*60⌉` for most word counts but not all (see the
counterexample); on the file path `wordCount` counts the whitespace-split
tokens of the returned content. -/
theorem C5_wordcount_readingtime_coupling :
    (∀ (env : PipelineEnv) (oracle : Nat → FetchOutcome) (url : String)
       (uc : Bool) (cache : ContentCache) (now : Nat),
      (∀ p ∈ cache, wcInv p.2.data) →
      wcInv (extractContent env oracle url uc cache now).metadata) ∧
    (∀ (o : FileOracles) (buffer fileName : String) (mimeType : Option String),
      wcInv (extractContentFromFile o buffer fileName mimeType) ∧
      ∀ w, (extractContentFromFile o buffer fileName mimeType).wordCount = some w →
        ∃ c, (extractContentFromFile o buffer fileName mimeType).content = some c ∧
          w = countWords c) := by
  constructor
  · intro env oracle url uc cache now hc
    rcases extractContent_cases env oracle url uc cache now with
      ⟨e, hg, hout⟩ | ⟨hmd, _⟩
    · rw [hout]
      exact hc _ (cacheGet_mem hg)
    · rcases hmd.2 with ⟨h1, h2⟩ | ⟨t, h1, h2⟩
      · exact ⟨by rw [h1, h2], by intro w hw; rw [h1] at hw; cases hw⟩
      · refine ⟨by rw [h1, h2]; simp, ?_⟩
        intro w hw
        rw [h1] at hw
        injection hw with hw
        rw [h2, hw]
  · intro o buffer fileName mimeType
    rcases extractContentFromFile_shape o buffer fileName mimeType with h | ⟨c, tp, meta, h⟩
    · rw [h]
      exact ⟨⟨by simp, by intro w hw; simp at hw⟩, by intro w hw; simp at hw⟩
    · rw [h]
      refine ⟨⟨by simp, ?_⟩, ?_⟩
      · intro w hw
        simp only [Option.some.injEq] at hw
        simp [← hw]
      · intro w hw
        simp only [Option.some.injEq] at hw
        exact ⟨c, rfl, hw.symm⟩

/-- Witness for C5's amended statement at concrete inputs: the coupling
holds for a URL extraction over the empty cache and for the `empty.txt`
file extraction. -/
theorem C5_witness :
    wcInv (extractContent trivialEnv oracleOk "https://example.com/a" true [] 0).metadata ∧
    wcInv (extractContentFromFile failingOracles "" "empty.txt" none) :=
  ⟨C5_wordcount_readingtime_coupling.1 trivialEnv oracleOk "https://example.com/a" true [] 0
      (by intro p hp; simp at hp),
   (C5_wordcount_readingtime_coupling.2 failingOracles "" "empty.txt" none).1⟩

/-- C2: `fetchWithRetry`'s failure policy is asymmetric.  A timeout at
attempt `k` (after transient failures) ends the whole call there with the
timeout error and no further retries; an oversized response —
content-length header or actual body over the 10 MB ceiling — is likewise
terminal; transient failures alone exhaust attempts `0…3` with backoff
delays `1000, 2000, 4000` ms and re-raise the last error.  Consequently an
all-timeout URL makes exactly one attempt and `extractContent` still
resolves to the minimal `{contentType, title: hostname-derived}` record. -/
theorem C2_fetch_failure_policy :
    (∀ (oracle : Nat → FetchOutcome) (k : Nat), k ≤ MAX_RETRIES →
      (∀ i, i < k → oracle i = .failure) → oracle k = .timeout →
      fetchWithRetry oracle MAX_RETRIES =
        ⟨.error .timeout, k + 1, (List.range k).map (fun i => RETRY_DELAY_BASE * 2 ^ i)⟩) ∧
    (∀ (oracle : Nat → FetchOutcome) (k : Nat), k ≤ MAX_RETRIES →
      (∀ i, i < k → oracle i = .failure) → oracle k = .tooLargeHeader →
      fetchWithRetry oracle MAX_RETRIES =
        ⟨.error .tooLarge, k + 1, (List.range k).map (fun i => RETRY_DELAY_BASE * 2 ^ i)⟩) ∧
    (∀ (oracle : Nat → FetchOutcome) (body : String),
      oracle 0 = .success body → MAX_RESPONSE_SIZE < body.length →
      fetchWithRetry oracle MAX_RETRIES = ⟨.error .tooLarge, 1, []⟩) ∧
    (∀ oracle : Nat → FetchOutcome, (∀ n, oracle n = .failure) →
      fetchWithRetry oracle MAX_RETRIES = ⟨.error .transient, 4, [1000, 2000, 4000]⟩) ∧
    (∀ (env : PipelineEnv) (oracle : Nat → FetchOutcome) (url : String) (uc : Bool)
       (cache : ContentCache) (now : Nat),
      (∀ n, oracle n = .timeout) →
      (parseUrlModel url).isNone = false →
      detectContentType url ≠ .YOUTUBE → detectContentType url ≠ .TWITTER →
      cacheGet cache url = none →
      extractContent env oracle url uc cache now =
        ⟨{ contentType := detectContentType url, title := some (extractTitleFromUrl url) },
          cache, 1, 1⟩) := by
  refine ⟨?_, ?_, ?_, ?_, ?_⟩
  · intro oracle k hk hf ho
    have hk3 : k ≤ 3 := hk
    clear hk
    interval_cases k
    · simp [fetchWithRetry, fetchGo, MAX_RETRIES, ho]
    · simp [fetchWithRetry, fetchGo, MAX_RETRIES, RETRY_DELAY_BASE, ho, hf 0 (by omega)]
      decide
    · simp [fetchWithRetry, fetchGo, MAX_RETRIES, RETRY_DELAY_BASE, ho,
        hf 0 (by omega), hf 1 (by omega)]
      decide
    · simp [fetchWithRetry, fetchGo, MAX_RETRIES, RETRY_DELAY_BASE, ho,
        hf 0 (by omega), hf 1 (by omega), hf 2 (by omega)]
      decide
  · intro oracle k hk hf ho
    have hk3 : k ≤ 3 := hk
    clear hk
    interval_cases k
    · simp [fetchWithRetry, fetchGo, MAX_RETRIES, ho]
    · simp [fetchWithRetry, fetchGo, MAX_RETRIES, RETRY_DELAY_BASE, ho, hf 0 (by omega)]
      decide
    · simp [fetchWithRetry, fetchGo, MAX_RETRIES, RETRY_DELAY_BASE, ho,
        hf 0 (by omega), hf 1 (by omega)]
      decide
    · simp [fetchWithRetry, fetchGo, MAX_RETRIES, RETRY_DELAY_BASE, ho,
        hf 0 (by omega), hf 1 (by omega), hf 2 (by omega)]
      decide
  · intro oracle body ho hlen
    simp [fetchWithRetry, fetchGo, MAX_RETRIES, ho, hlen]
  · intro oracle hf
    simp [fetchWithRetry, fetchGo, MAX_RETRIES, RETRY_DELAY_BASE, hf]
  · intro env oracle url uc cache now ho hv hyt htw hmiss
    have hfr : fetchWithRetry oracle MAX_RETRIES = ⟨.error .timeout, 1, []⟩ := by
      simp [fetchWithRetry, fetchGo, MAX_RETRIES, ho 0]
    have hbody : extractContentBody env oracle url uc cache now =
        .error ⟨.fetch .timeout, 1, 1⟩ := by
      simp [extractContentBody, extractFresh, hv, hmiss, if_neg hyt, if_neg htw, hfr]
    simp [extractContent, hbody]

/-- Witness for C2 at concrete oracles: immediate timeout (one attempt, no
delays), failure-then-oversize-header (terminal at attempt 1), oversized
body (terminal at attempt 0), all-transient (four attempts, backoff 1 s,
2 s, 4 s), and the all-timeout pipeline resolving to the minimal
hostname-titled record with exactly one attempt. -/
theorem C2_witness :
    fetchWithRetry oracleTimeout MAX_RETRIES = ⟨.error .timeout, 1, []⟩ ∧
    fetchWithRetry oracleFailThenLarge MAX_RETRIES = ⟨.error .tooLarge, 2, [1000]⟩ ∧
    fetchWithRetry oracleBig MAX_RETRIES = ⟨.error .tooLarge, 1, []⟩ ∧
    fetchWithRetry oracleFail MAX_RETRIES = ⟨.error .transient, 4, [1000, 2000, 4000]⟩ ∧
    extractContent trivialEnv oracleTimeout "https://example.com/a" true [] 0 =
      ⟨{ contentType := .ARTICLE, title := some "example.com" }, [], 1, 1⟩ :=
  ⟨C2_fetch_failure_policy.1 oracleTimeout 0 (by decide) (by decide) rfl,
   C2_fetch_failure_policy.2.1 oracleFailThenLarge 1 (by decide) (by decide) rfl,
   C2_fetch_failure_policy.2.2.1 oracleBig bigBody rfl
     (by
       show MAX_RESPONSE_SIZE < (List.replicate (MAX_RESPONSE_SIZE + 1) 'a').length
       rw [List.length_replicate]
       omega),
   C2_fetch_failure_policy.2.2.2.1 oracleFail (fun _ => rfl),
   C2_fetch_failure_policy.2.2.2.2 trivialEnv oracleTimeout "https://example.com/a" true [] 0
     (fun _ => rfl) (by decide) (by decide) (by decide) rfl⟩

/-- Counterexample to C1 as stated: on the syntactically malformed input
`"not a url"` the exported `extractContent` does not raise at all — the
inner invalid-URL throw is swallowed by the function's own outer catch —
and instead resolves to the minimal record (classifier default `ARTICLE`,
title `'Untitled'`), with zero fetch calls and zero attempts. -/
theorem C1_counterexample :
    extractContent trivialEnv oracleFail "not a url" true [] 0 =
      ⟨{ contentType := .ARTICLE, title := some "Untitled" }, [], 0, 0⟩ := by
  decide

/-- C1 (amended): for every syntactically malformed URL the body throws
the invalid-URL error before any network activity (zero fetch calls, zero
attempts), and the exported function converts that throw into a normal
resolution with the minimal record and an unchanged cache; it makes zero
network calls.  (For valid URLs the exported function never raises either:
it is total by construction, every body error being converted by the same
catch.) -/
theorem C1_invalid_url_swallowed (env : PipelineEnv) (oracle : Nat → FetchOutcome)
    (url : String) (uc : Bool) (cache : ContentCache) (now : Nat)
    (hv : parseUrlModel url = none) :
    extractContentBody env oracle url uc cache now = .error ⟨.invalidUrl, 0, 0⟩ ∧
    extractContent env oracle url uc cache now =
      ⟨{ contentType := detectContentType url, title := some (extractTitleFromUrl url) },
        cache, 0, 0⟩ := by
  have hbody : extractContentBody env oracle url uc cache now = .error ⟨.invalidUrl, 0, 0⟩ := by
    simp [extractContentBody, hv]
  exact ⟨hbody, by simp [extractContent, hbody]⟩

/-- Witness for C1's amended statement at the concrete malformed input. -/
theorem C1_witness :
    extractContentBody trivialEnv oracleOk "ht tp" false [] 3 = .error ⟨.invalidUrl, 0, 0⟩ ∧
    extractContent trivialEnv oracleOk "ht tp" false [] 3 =
      ⟨{ contentType := .ARTICLE, title := some "Untitled" }, [], 0, 0⟩ :=
  C1_invalid_url_swallowed trivialEnv oracleOk "ht tp" false [] 3 (by decide)

/-- Looking up the key just written returns the new entry. -/
theorem cacheGet_cacheSet (cache : ContentCache) (url : String) (e : CacheEntry) :
    cacheGet (cacheSet cache url e) url = some e := by
  simp [cacheGet, cacheSet, List.find?_cons_of_pos]

/-- The main (non-adapter) branch with a successful fetch returns some
record, writes it to the cache exactly when `useCache` is set, and counts
one fetch call with the retry loop's attempt count. -/
theorem extractFresh_main_ok (env : PipelineEnv) (oracle : Nat → FetchOutcome)
    (url : String) (uc : Bool) (cache : ContentCache) (now : Nat) (html : String)
    (hyt : detectContentType url ≠ .YOUTUBE) (htw : detectContentType url ≠ .TWITTER)
    (hfr : (fetchWithRetry oracle MAX_RETRIES).result = .ok html) :
    ∃ md, extractFresh env oracle url uc cache now =
      .ok ⟨md, (if uc then cacheSet cache url ⟨md, now⟩ else cache), 1,
        (fetchWithRetry oracle MAX_RETRIES).attempts⟩ := by
  rcases hE : extractFresh env oracle url uc cache now with be | r
  · exfalso
    simp only [extractFresh, if_neg hyt, if_neg htw, hfr] at hE
    try dsimp only at hE
    cases hE
  · simp only [extractFresh, if_neg hyt, if_neg htw, hfr] at hE
    try dsimp only at hE
    rw [Except.ok.injEq] at hE
    subst hE
    exact ⟨_, rfl⟩

/-- Counterexample to C3 as stated: two `useCache=true` calls within 24
hours whose first fetch fails trigger two network fetches (nothing is
cached on failure — the minimal record is returned without a cache write),
and a successful `useCache=false` call does not overwrite the cache entry
(the same call with `useCache=true` does write). -/
theorem C3_counterexample :
    (extractTwice trivialEnv oracleFail oracleFail "https://example.com/a"
        true [] 0 1000).1.fetchCalls +
      (extractTwice trivialEnv oracleFail oracleFail "https://example.com/a"
        true [] 0 1000).2.fetchCalls = 2 ∧
    (extractContent trivialEnv oracleOk "https://example.com/a" false [] 0).cache = [] ∧
    (extractContent trivialEnv oracleOk "https://example.com/a" true [] 0).cache ≠ [] := by
  decide

/-- C3 (amended): a cache entry for the exact URL written less than 24
hours ago short-circuits the pipeline and returns the stored snapshot
verbatim with zero network activity; a call with `useCache=false` re-runs
the pipeline but never touches the cache; and when the first of two
`useCache=true` calls within 24 hours has a successful fetch, it makes the
only network fetch, writes its record, and the second call returns that
record verbatim with zero fetches. -/
theorem C3_cache_semantics :
    (∀ (env : PipelineEnv) (oracle : Nat → FetchOutcome) (url : String)
       (cache : ContentCache) (now : Nat) (e : CacheEntry),
      (parseUrlModel url).isNone = false →
      cacheGet cache url = some e → now - e.timestamp < CACHE_TTL →
      extractContent env oracle url true cache now = ⟨e.data, cache, 0, 0⟩) ∧
    (∀ (env : PipelineEnv) (oracle : Nat → FetchOutcome) (url : String)
       (cache : ContentCache) (now : Nat),
      (extractContent env oracle url false cache now).cache = cache) ∧
    (∀ (env : PipelineEnv) (o1 o2 : Nat → FetchOutcome) (url : String)
       (cache : ContentCache) (now1 now2 : Nat) (html : String),
      (parseUrlModel url).isNone = false →
      detectContentType url ≠ .YOUTUBE → detectContentType url ≠ .TWITTER →
      cacheGet cache url = none →
      (fetchWithRetry o1 MAX_RETRIES).result = .ok html →
      now2 - now1 < CACHE_TTL →
      (extractContent env o1 url true cache now1).fetchCalls = 1 ∧
      cacheGet (extractContent env o1 url true cache now1).cache url =
        some ⟨(extractContent env o1 url true cache now1).metadata, now1⟩ ∧
      (extractTwice env o1 o2 url true cache now1 now2).2 =
        ⟨(extractContent env o1 url true cache now1).metadata,
          (extractContent env o1 url true cache now1).cache, 0, 0⟩) := by
  have hit : ∀ (env : PipelineEnv) (oracle : Nat → FetchOutcome) (url : String)
      (cache : ContentCache) (now : Nat) (e : CacheEntry),
      (parseUrlModel url).isNone = false →
      cacheGet cache url = some e → now - e.timestamp < CACHE_TTL →
      extractContent env oracle url true cache now = ⟨e.data, cache, 0, 0⟩ := by
    intro env oracle url cache now e hv hg httl
    simp [extractContent, extractContentBody, hv, hg, httl]
  refine ⟨hit, ?_, ?_⟩
  · intro env oracle url cache now
    by_cases hv : (parseUrlModel url).isNone
    · have hbody : extractContentBody env oracle url false cache now =
          .error ⟨.invalidUrl, 0, 0⟩ := by
        simp [extractContentBody, hv]
      simp [extractContent, hbody]
    · have hbody : extractContentBody env oracle url false cache now =
          extractFresh env oracle url false cache now := by
        simp [extractContentBody, hv]
      rcases extractFresh_cases env oracle url false cache now with ⟨be, hf⟩ | ⟨r, hf, _, hcache⟩
      · simp [extractContent, hbody, hf]
      · simp only [Bool.false_eq_true, if_false] at hcache
        simp [extractContent, hbody, hf, hcache]
  · intro env o1 o2 url cache now1 now2 html hv hyt htw hmiss hfr httl
    obtain ⟨md, hfres⟩ := extractFresh_main_ok env o1 url true cache now1 html hyt htw hfr
    have hbody1 : extractContentBody env o1 url true cache now1 =
        extractFresh env o1 url true cache now1 := by
      simp [extractContentBody, hv, hmiss]
    have hr1 : extractContent env o1 url true cache now1 =
        ⟨md, cacheSet cache url ⟨md, now1⟩, 1, (fetchWithRetry o1 MAX_RETRIES).attempts⟩ := by
      simp [extractContent, hbody1, hfres]
    rw [hr1]
    refine ⟨rfl, ?_, ?_⟩
    · exact cacheGet_cacheSet cache url ⟨md, now1⟩
    · show extractContent env o2 url true
        (extractContent env o1 url true cache now1).cache now2 = _
      rw [hr1]
      exact hit env o2 url (cacheSet cache url ⟨md, now1⟩) now2 ⟨md, now1⟩ hv
        (cacheGet_cacheSet cache url ⟨md, now1⟩) httl

/-- Witness for C3's amended statement at concrete inputs: a fresh hit
returned verbatim, the `useCache=false` no-write, and the
successful-first-call scenario with the second call free. -/
theorem C3_witness :
    extractContent trivialEnv oracleFail "https://example.com/a" true
        [("https://example.com/a", ⟨{ contentType := .ARTICLE }, 50⟩)] 60 =
      ⟨{ contentType := .ARTICLE }, [("https://example.com/a", ⟨{ contentType := .ARTICLE }, 50⟩)], 0, 0⟩ ∧
    (extractContent trivialEnv oracleOk "https://example.com/a" false [] 0).cache = [] ∧
    (extractContent trivialEnv oracleOk "https://example.com/a" true [] 0).fetchCalls = 1 :=
  ⟨C3_cache_semantics.1 trivialEnv oracleFail "https://example.com/a" _ 60
      ⟨{ contentType := .ARTICLE }, 50⟩ (by decide) (by decide) (by decide),
   C3_cache_semantics.2.1 trivialEnv oracleOk "https://example.com/a" [] 0,
   (C3_cache_semantics.2.2 trivialEnv oracleOk oracleOk "https://example.com/a" [] 0 1000
      "<p>ok</p>" (by decide) (by decide) (by decide) rfl (by decide) (by decide)).1⟩

/-- A case-insensitive pattern match needs at least its own length. -/
theorem startsWCI_length : ∀ (p l : List Char), startsWCI p l = true → p.length ≤ l.length := by
  intro p
  induction p with
  | nil => intro l _; simp
  | cons a p ih =>
    intro l h
    rcases l with _ | ⟨b, l'⟩
    · simp [startsWCI] at h
    · simp only [startsWCI, Bool.and_eq_true] at h
      simpa using ih l' h.2

/-- Consuming through the closing tag removes at least three characters
and never grows the remainder. -/
theorem dropThroughCloseTag_len (tag : List Char) :
    ∀ (l r : List Char), dropThroughCloseTag tag l = some r → r.length + 3 ≤ l.length := by
  intro l
  induction l with
  | nil => intro r h; simp [dropThroughCloseTag] at h
  | cons c rest ih =>
    intro r h
    rw [dropThroughCloseTag] at h
    split at h
    · rename_i hstart
      have hlen := startsWCI_length _ _ hstart
      simp only [List.length_cons, List.length_append, List.length_cons] at hlen
      simp only [Option.some.injEq] at h
      subst h
      simp only [List.length_drop, List.length_cons]
      omega
    · have := ih r h
      simp only [List.length_cons]
      omega

/-- The script/style block pass never grows its input. -/
theorem removeTagBlocksF_length (tag : List Char) :
    ∀ (fuel : Nat) (cs : List Char), (removeTagBlocksF tag fuel cs).length ≤ cs.length := by
  intro fuel
  induction fuel with
  | zero => intro cs; simp [removeTagBlocksF]
  | succ fuel ih =>
    intro cs
    rcases cs with _ | ⟨c, rest⟩
    · simp [removeTagBlocksF]
    · rw [removeTagBlocksF]
      split
      · split
        · rename_i r heq
          have h1 := dropThroughCloseTag_len tag _ _ heq
          have h2 := ih r
          simp only [List.length_drop, List.length_cons] at h1
          simp only [List.length_cons]
          omega
        · have := ih rest
          simp only [List.length_cons]
          omega
      · have := ih rest
        simp only [List.length_cons]
        omega

/-- With fuel at least the input length, a present block is removed:
the output is strictly shorter. -/
theorem removeTagBlocksF_lt (tag : List Char) :
    ∀ (fuel : Nat) (cs : List Char), cs.length ≤ fuel → hasTagBlock tag cs = true →
      (removeTagBlocksF tag fuel cs).length < cs.length := by
  intro fuel
  induction fuel with
  | zero =>
    intro cs hf h
    rcases cs with _ | ⟨c, rest⟩
    · simp [hasTagBlock] at h
    · simp at hf
  | succ fuel ih =>
    intro cs hf h
    rcases cs with _ | ⟨c, rest⟩
    · simp [hasTagBlock] at h
    · rw [removeTagBlocksF]
      rw [hasTagBlock] at h
      split
      · rename_i hopen
        rcases heq : dropThroughCloseTag tag ((c :: rest).drop (tag.length + 1)) with _ | r
        · show (c :: removeTagBlocksF tag fuel rest).length < (c :: rest).length
          simp only [hopen, heq, Option.isSome_none, Bool.and_false, Bool.false_or] at h
          have := ih rest (by simp at hf; omega) h
          simp only [List.length_cons]
          omega
        · show (removeTagBlocksF tag fuel r).length < (c :: rest).length
          have h1 := dropThroughCloseTag_len tag _ _ heq
          have h2 := removeTagBlocksF_length tag fuel r
          simp only [List.length_drop, List.length_cons] at h1
          simp only [List.length_cons]
          omega
      · rename_i hopen
        simp only [Bool.not_eq_true] at hopen
        simp only [hopen, Bool.false_and, Bool.false_or] at h
        have := ih rest (by simp at hf; omega) h
        simp only [List.length_cons]
        omega

/-- Without a present block the pass is the identity, for any fuel. -/
theorem removeTagBlocksF_id (tag : List Char) :
    ∀ (fuel : Nat) (cs : List Char), hasTagBlock tag cs = false →
      removeTagBlocksF tag fuel cs = cs := by
  intro fuel
  induction fuel with
  | zero => intro cs _; simp [removeTagBlocksF]
  | succ fuel ih =>
    intro cs h
    rcases cs with _ | ⟨c, rest⟩
    · simp [removeTagBlocksF]
    · rw [removeTagBlocksF]
      rw [hasTagBlock] at h
      simp only [Bool.or_eq_false_iff, Bool.and_eq_false_iff] at h
      split
      · rename_i hopen
        rcases heq : dropThroughCloseTag tag ((c :: rest).drop (tag.length + 1)) with _ | r
        · show c :: removeTagBlocksF tag fuel rest = c :: rest
          rw [ih rest h.2]
        · rcases h.1 with h1 | h1
          · rw [hopen] at h1
            cases h1
          · rw [heq] at h1
            cases h1
      · rw [ih rest h.2]

/-- A handler match consumes at least one character. -/
theorem matchHandler_len : ∀ (cs r : List Char), matchHandler cs = some r → r.length < cs.length := by
  intro cs r h
  unfold matchHandler at h
  have hd1 : (cs.dropWhile (fun c => wsChar c)).length ≤ cs.length := (List.dropWhile_sublist _).length_le
  rcases h1 : cs.dropWhile (fun c => wsChar c) with _ | ⟨o, rest1⟩
  · rw [h1] at h
    cases h
  · rw [h1] at h hd1
    rcases rest1 with _ | ⟨n, r2⟩
    · cases h
    · simp only at h
      split at h
      · split at h
        · cases h
        · have hd3 : (r2.dropWhile (fun c => wordChar c)).length ≤ r2.length :=
            (List.dropWhile_sublist _).length_le
          have hd5 : ((r2.dropWhile (fun c => wordChar c)).dropWhile
              (fun c => wsChar c)).length ≤ (r2.dropWhile (fun c => wordChar c)).length :=
            (List.dropWhile_sublist _).length_le
          split at h
          · rename_i r5 heq5
            rw [heq5] at hd5
            have hd7 : (r5.dropWhile (fun c => wsChar c)).length ≤ r5.length :=
              (List.dropWhile_sublist _).length_le
            split at h
            · rename_i q r7 heq7
              rw [heq7] at hd7
              split at h
              · have hd9 : (r7.dropWhile (fun c => !quoteChar c)).length ≤ r7.length :=
                  (List.dropWhile_sublist _).length_le
                split at h
                · rename_i c9 r9 heq9
                  rw [heq9] at hd9
                  simp only [Option.some.injEq] at h
                  subst h
                  simp only [List.length_cons] at hd1 hd5 hd7 hd9 ⊢
                  omega
                · cases h
              · cases h
            · cases h
          · cases h
      · cases h

/-- The handler pass never grows its input. -/
theorem removeHandlersF_length :
    ∀ (fuel : Nat) (cs : List Char), (removeHandlersF fuel cs).length ≤ cs.length := by
  intro fuel
  induction fuel with
  | zero => intro cs; simp [removeHandlersF]
  | succ fuel ih =>
    intro cs
    rcases cs with _ | ⟨c, rest⟩
    · simp [removeHandlersF]
    · rw [removeHandlersF]
      rcases hm : matchHandler (c :: rest) with _ | r
      · have := ih rest
        simp only [List.length_cons]
        omega
      · have h1 := matchHandler_len _ _ hm
        have h2 := ih r
        simp only [List.length_cons] at h1 ⊢
        omega

/-- With enough fuel a present handler attribute is removed: strictly
shorter output. -/
theorem removeHandlersF_lt :
    ∀ (fuel : Nat) (cs : List Char), cs.length ≤ fuel → hasHandler cs = true →
      (removeHandlersF fuel cs).length < cs.length := by
  intro fuel
  induction fuel with
  | zero =>
    intro cs hf h
    rcases cs with _ | ⟨c, rest⟩
    · simp [hasHandler] at h
    · simp at hf
  | succ fuel ih =>
    intro cs hf h
    rcases cs with _ | ⟨c, rest⟩
    · simp [hasHandler] at h
    · rw [removeHandlersF]
      rw [hasHandler] at h
      rcases hm : matchHandler (c :: rest) with _ | r
      · simp only [hm, Option.isSome_none, Bool.false_or] at h
        have := ih rest (by simp at hf; omega) h
        simp only [List.length_cons]
        omega
      · have h1 := matchHandler_len _ _ hm
        have h2 := removeHandlersF_length fuel r
        simp only [List.length_cons] at h1 ⊢
        omega

/-- Without a handler match the pass is the identity. -/
theorem removeHandlersF_id :
    ∀ (fuel : Nat) (cs : List Char), hasHandler cs = false → removeHandlersF fuel cs = cs := by
  intro fuel
  induction fuel with
  | zero => intro cs _; simp [removeHandlersF]
  | succ fuel ih =>
    intro cs h
    rcases cs with _ | ⟨c, rest⟩
    · simp [removeHandlersF]
    · rw [removeHandlersF]
      rw [hasHandler] at h
      simp only [Bool.or_eq_false_iff] at h
      rcases hm : matchHandler (c :: rest) with _ | r
      · rw [ih rest h.2]
      · rw [hm] at h
        simp at h

/-- The literal pass never grows its input. -/
theorem removeLitF_length (lit : List Char) :
    ∀ (fuel : Nat) (cs : List Char), (removeLitF lit fuel cs).length ≤ cs.length := by
  intro fuel
  induction fuel with
  | zero => intro cs; simp [removeLitF]
  | succ fuel ih =>
    intro cs
    rcases cs with _ | ⟨c, rest⟩
    · simp [removeLitF]
    · rw [removeLitF]
      split
      · have h2 := ih ((c :: rest).drop lit.length)
        simp only [List.length_drop, List.length_cons] at h2 ⊢
        omega
      · have := ih rest
        simp only [List.length_cons]
        omega

/-- With enough fuel a present (nonempty) literal is removed: strictly
shorter output. -/
theorem removeLitF_lt (lit : List Char) (hl : 0 < lit.length) :
    ∀ (fuel : Nat) (cs : List Char), cs.length ≤ fuel → hasLit lit cs = true →
      (removeLitF lit fuel cs).length < cs.length := by
  intro fuel
  induction fuel with
  | zero =>
    intro cs hf h
    rcases cs with _ | ⟨c, rest⟩
    · simp [hasLit] at h
    · simp at hf
  | succ fuel ih =>
    intro cs hf h
    rcases cs with _ | ⟨c, rest⟩
    · simp [hasLit] at h
    · rw [removeLitF]
      rw [hasLit] at h
      split
      · rename_i hstart
        have hlen := startsWCI_length _ _ hstart
        have h2 := removeLitF_length lit fuel ((c :: rest).drop lit.length)
        simp only [List.length_drop, List.length_cons] at h2 hlen ⊢
        omega
      · rename_i hstart
        simp only [Bool.not_eq_true] at hstart
        simp only [hstart, Bool.false_or] at h
        have := ih rest (by simp at hf; omega) h
        simp only [List.length_cons]
        omega

/-- Without a literal occurrence the pass is the identity. -/
theorem removeLitF_id (lit : List Char) :
    ∀ (fuel : Nat) (cs : List Char), hasLit lit cs = false → removeLitF lit fuel cs = cs := by
  intro fuel
  induction fuel with
  | zero => intro cs _; simp [removeLitF]
  | succ fuel ih =>
    intro cs h
    rcases cs with _ | ⟨c, rest⟩
    · simp [removeLitF]
    · rw [removeLitF]
      rw [hasLit] at h
      simp only [Bool.or_eq_false_iff] at h
      split
      · rename_i hstart
        rw [hstart] at h
        simp at h
      · rw [ih rest h.2]

/-- C8: `sanitizeHtml` removes script and style blocks with their content,
strips inline `on*="…"` event-handler attributes and removes the
`javascript:` and `data:text/html` schemes — each as a single
leftmost-first global replacement.  The claim's concrete example
sanitizes to exactly `<p>hi</p>` (so neither `<script` nor `onclick=`
survives); whenever any of the five patterns occurs in the input,
sanitization strictly shortens it (a removal fired); and an input free of
all five patterns passes through unchanged. -/
theorem C8_sanitize_html :
    (sanitizeHtml "<script>alert(1)</script><p onclick=\"x()\">hi</p>" = "<p>hi</p>" ∧
     containsSub (sanitizeHtml "<script>alert(1)</script><p onclick=\"x()\">hi</p>")
       "<script" = false ∧
     containsSub (sanitizeHtml "<script>alert(1)</script><p onclick=\"x()\">hi</p>")
       "onclick=" = false) ∧
    (∀ html : String,
      hasTagBlock "script".data html.data = true ∨ hasTagBlock "style".data html.data = true ∨
      hasHandler html.data = true ∨ hasLit "javascript:".data html.data = true ∨
      hasLit "data:text/html".data html.data = true →
      (sanitizeHtml html).data.length < html.data.length) ∧
    (∀ html : String,
      hasTagBlock "script".data html.data = false → hasTagBlock "style".data html.data = false →
      hasHandler html.data = false → hasLit "javascript:".data html.data = false →
      hasLit "data:text/html".data html.data = false →
      sanitizeHtml html = html) := by
  refine ⟨⟨by decide, by decide, by decide⟩, ?_, ?_⟩
  · intro html h
    set s1 := removeTagBlocksF "script".data html.data.length html.data with hs1
    set s2 := removeTagBlocksF "style".data s1.length s1 with hs2
    set s3 := removeHandlersF s2.length s2 with hs3
    set s4 := removeLitF "javascript:".data s3.length s3 with hs4
    have hout : (sanitizeHtml html).data = removeLitF "data:text/html".data s4.length s4 := rfl
    have l2 : s2.length ≤ s1.length := removeTagBlocksF_length _ _ _
    have l3 : s3.length ≤ s2.length := removeHandlersF_length _ _
    have l4 : s4.length ≤ s3.length := removeLitF_length _ _ _
    have l5 : (removeLitF "data:text/html".data s4.length s4).length ≤ s4.length :=
      removeLitF_length _ _ _
    rw [hout]
    rcases h with h | h | h | h | h
    · have : s1.length < html.data.length := removeTagBlocksF_lt _ _ _ le_rfl h
      omega
    · rcases e1 : hasTagBlock "script".data html.data with _ | _
      · have i1 : s1 = html.data := removeTagBlocksF_id _ _ _ e1
        have i1len : s1.length = html.data.length := by rw [i1]
        have : s2.length < s1.length := removeTagBlocksF_lt _ _ _ le_rfl (by rw [i1]; exact h)
        omega
      · have : s1.length < html.data.length := removeTagBlocksF_lt _ _ _ le_rfl e1
        omega
    · rcases e1 : hasTagBlock "script".data html.data with _ | _
      · have i1 : s1 = html.data := removeTagBlocksF_id _ _ _ e1
        rcases e2 : hasTagBlock "style".data s1 with _ | _
        · have i2 : s2 = s1 := removeTagBlocksF_id _ _ _ e2
          have i1len : s1.length = html.data.length := by rw [i1]
          have i2len : s2.length = s1.length := by rw [i2]
          have : s3.length < s2.length :=
            removeHandlersF_lt _ _ le_rfl (by rw [i2, i1]; exact h)
          omega
        · have : s2.length < s1.length := removeTagBlocksF_lt _ _ _ le_rfl e2
          have i1len : s1.length ≤ html.data.length := le_of_eq (by rw [i1])
          omega
      · have : s1.length < html.data.length := removeTagBlocksF_lt _ _ _ le_rfl e1
        omega
    · rcases e1 : hasTagBlock "script".data html.data with _ | _
      · have i1 : s1 = html.data := removeTagBlocksF_id _ _ _ e1
        rcases e2 : hasTagBlock "style".data s1 with _ | _
        · have i2 : s2 = s1 := removeTagBlocksF_id _ _ _ e2
          rcases e3 : hasHandler s2 with _ | _
          · have i3 : s3 = s2 := removeHandlersF_id _ _ e3
            have i1len : s1.length = html.data.length := by rw [i1]
            have i2len : s2.length = s1.length := by rw [i2]
            have i3len : s3.length = s2.length := by rw [i3]
            have : s4.length < s3.length :=
              removeLitF_lt _ (by decide) _ _ le_rfl (by rw [i3, i2, i1]; exact h)
            omega
          · have : s3.length < s2.length := removeHandlersF_lt _ _ le_rfl e3
            have : s2.length ≤ html.data.length := by rw [i2, i1]
            omega
        · have : s2.length < s1.length := removeTagBlocksF_lt _ _ _ le_rfl e2
          have : s1.length ≤ html.data.length := le_of_eq (by rw [i1])
          omega
      · have : s1.length < html.data.length := removeTagBlocksF_lt _ _ _ le_rfl e1
        omega
    · rcases e1 : hasTagBlock "script".data html.data with _ | _
      · have i1 : s1 = html.data := removeTagBlocksF_id _ _ _ e1
        rcases e2 : hasTagBlock "style".data s1 with _ | _
        · have i2 : s2 = s1 := removeTagBlocksF_id _ _ _ e2
          rcases e3 : hasHandler s2 with _ | _
          · have i3 : s3 = s2 := removeHandlersF_id _ _ e3
            rcases e4 : hasLit "javascript:".data s3 with _ | _
            · have i4 : s4 = s3 := removeLitF_id _ _ _ e4
              have i1len : s1.length = html.data.length := by rw [i1]
              have i2len : s2.length = s1.length := by rw [i2]
              have i3len : s3.length = s2.length := by rw [i3]
              have i4len : s4.length = s3.length := by rw [i4]
              have : (removeLitF "data:text/html".data s4.length s4).length < s4.length :=
                removeLitF_lt _ (by decide) _ _ le_rfl (by rw [i4, i3, i2, i1]; exact h)
              omega
            · have : s4.length < s3.length := removeLitF_lt _ (by decide) _ _ le_rfl e4
              have : s3.length ≤ html.data.length := by rw [i3, i2, i1]
              omega
          · have : s3.length < s2.length := removeHandlersF_lt _ _ le_rfl e3
            have : s2.length ≤ html.data.length := by rw [i2, i1]
            omega
        · have : s2.length < s1.length := removeTagBlocksF_lt _ _ _ le_rfl e2
          have : s1.length ≤ html.data.length := le_of_eq (by rw [i1])
          omega
      · have : s1.length < html.data.length := removeTagBlocksF_lt _ _ _ le_rfl e1
        omega
  · intro html h1 h2 h3 h4 h5
    obtain ⟨l⟩ := html
    show (⟨sanitizeHtmlL l⟩ : String) = ⟨l⟩
    have i1 : removeTagBlocksF "script".data l.length l = l :=
      removeTagBlocksF_id _ _ _ h1
    simp only [sanitizeHtmlL]
    rw [i1]
    rw [removeTagBlocksF_id _ _ _ h2]
    rw [removeHandlersF_id _ _ h3]
    rw [removeLitF_id _ _ _ h4]
    rw [removeLitF_id _ _ _ h5]

/-- Witness for C8's hypotheses at concrete inputs: a handler-bearing
input strictly shrinks, and a clean input is unchanged. -/
theorem C8_witness :
    (sanitizeHtml "<p onclick=\"evil()\">x</p>").data.length <
      ("<p onclick=\"evil()\">x</p>" : String).data.length ∧
    sanitizeHtml "<p>hi there</p>" = "<p>hi there</p>" :=
  ⟨C8_sanitize_html.2.1 "<p onclick=\"evil()\">x</p>"
      (Or.inr (Or.inr (Or.inl (by decide)))),
   C8_sanitize_html.2.2 "<p>hi there</p>"
      (by decide) (by decide) (by decide) (by decide) (by decide)⟩

set_option maxRecDepth 10000 in
/-- Counterexample to C4 as stated: with a parsed document whose
`<article>` holds well over 100 characters of text, a Readability run that
yields no article *without throwing* leaves `content` absent — the
container-selector fallback (which would return that text) is not
invoked, because the source only falls back inside the `catch`. -/
theorem C4_counterexample :
    (extractContent envC4 oracleOk "https://example.com/a" true [] 0).metadata.content = none ∧
    extractContentFallback docC4 ≠ "" := by
  exact ⟨by decide, by decide⟩

/-- C4 (amended): in the HTML pipeline, whenever Readability *throws*,
extraction falls back to `extractContentFallback`; when Readability
returns no article without throwing, no fallback runs and `content` is
left unset; and `extractContentFallback` realises exactly the specified
search — the ordered container-selector list (article, [role=article],
.content, .post-content, .entry-content, .article-content, main, class/id
containing "content"), each candidate cleaned of
script/style/nav/header/footer/aside/ad-marked descendants, the first
whose remaining trimmed text exceeds 100 characters, and finally the
cleaned body text. -/
theorem C4_fallback_on_throw :
    (∀ (env : PipelineEnv) (oracle : Nat → FetchOutcome) (url : String) (uc : Bool)
       (cache : ContentCache) (now : Nat) (html : String),
      (parseUrlModel url).isNone = false →
      detectContentType url ≠ .YOUTUBE → detectContentType url ≠ .TWITTER →
      cacheGet cache url = none →
      (fetchWithRetry oracle MAX_RETRIES).result = .ok html →
      env.readability (env.parseHtml html) = .throws →
      (extractContent env oracle url uc cache now).metadata.content =
        some (extractContentFallback (env.parseHtml html))) ∧
    (∀ (env : PipelineEnv) (oracle : Nat → FetchOutcome) (url : String) (uc : Bool)
       (cache : ContentCache) (now : Nat) (html : String),
      (parseUrlModel url).isNone = false →
      detectContentType url ≠ .YOUTUBE → detectContentType url ≠ .TWITTER →
      cacheGet cache url = none →
      (fetchWithRetry oracle MAX_RETRIES).result = .ok html →
      env.readability (env.parseHtml html) = .noArticle →
      (extractContent env oracle url uc cache now).metadata.content = none) ∧
    (∀ doc : DNode, extractContentFallback doc = fallbackSpec doc) := by
  have hloop : ∀ (doc : DNode) (l : List Sel), fallbackLoop doc l =
      (l.filterMap fun sel =>
        match qselN sel doc with
        | some el =>
          if 100 < (trimStr (textContentN (stripN unwantedSels el))).data.length then
            some (trimStr (textContentN (stripN unwantedSels el)))
          else none
        | none => none).head? := by
    intro doc l
    induction l with
    | nil => simp [fallbackLoop]
    | cons sel rest ih =>
      rw [fallbackLoop]
      rcases hq : qselN sel doc with _ | el
      · simp only [List.filterMap_cons, hq]
        exact ih
      · by_cases ht : 100 < (trimStr (textContentN (stripN unwantedSels el))).data.length
        · simp only [List.filterMap_cons, hq, ht, if_true, if_pos ht]
          rfl
        · simp only [List.filterMap_cons, hq, if_neg ht]
          exact ih
  refine ⟨?_, ?_, ?_⟩
  · intro env oracle url uc cache now html hv hyt htw hmiss hfr hr
    have hbody : extractContentBody env oracle url uc cache now =
        extractFresh env oracle url uc cache now := by
      simp [extractContentBody, hv, hmiss]
    rcases hE : extractFresh env oracle url uc cache now with be | r
    · exfalso
      simp only [extractFresh, if_neg hyt, if_neg htw, hfr] at hE
      try dsimp only at hE
      cases hE
    · have hres : extractContent env oracle url uc cache now = r := by
        simp [extractContent, hbody, hE]
      rw [hres]
      simp only [extractFresh, if_neg hyt, if_neg htw, hfr] at hE
      try dsimp only at hE
      rw [hr] at hE
      try dsimp only at hE
      rw [Except.ok.injEq] at hE
      subst hE
      by_cases hc : extractContentFallback (env.parseHtml html) = ""
      · simp [hc]
      · simp [hc]
  · intro env oracle url uc cache now html hv hyt htw hmiss hfr hr
    have hbody : extractContentBody env oracle url uc cache now =
        extractFresh env oracle url uc cache now := by
      simp [extractContentBody, hv, hmiss]
    rcases hE : extractFresh env oracle url uc cache now with be | r
    · exfalso
      simp only [extractFresh, if_neg hyt, if_neg htw, hfr] at hE
      try dsimp only at hE
      cases hE
    · have hres : extractContent env oracle url uc cache now = r := by
        simp [extractContent, hbody, hE]
      rw [hres]
      simp only [extractFresh, if_neg hyt, if_neg htw, hfr] at hE
      try dsimp only at hE
      rw [hr] at hE
      try dsimp only at hE
      rw [Except.ok.injEq] at hE
      subst hE
      rfl
  · intro doc
    unfold extractContentFallback fallbackSpec
    rw [hloop doc contentSelList]
    rcases (contentSelList.filterMap fun sel =>
        match qselN sel doc with
        | some el =>
          if 100 < (trimStr (textContentN (stripN unwantedSels el))).data.length then
            some (trimStr (textContentN (stripN unwantedSels el)))
          else none
        | none => none) with _ | ⟨t, rest⟩
    · rfl
    · rfl

/-- Witness for C4's amended statement at concrete inputs: with a throwing
Readability the pipeline's content is exactly the fallback text of the
parsed document, and the fallback agrees with its specification on that
document. -/
theorem C4_witness :
    (extractContent envC4throws oracleOk "https://example.com/a" true [] 0).metadata.content =
      some (extractContentFallback docC4) ∧
    extractContentFallback docC4 = fallbackSpec docC4 :=
  ⟨C4_fallback_on_throw.1 envC4throws oracleOk "https://example.com/a" true [] 0 "<p>ok</p>"
      (by decide) (by decide) (by decide) rfl rfl rfl,
   C4_fallback_on_throw.2.2 docC4⟩

/-- `takeWhile` walks through a prefix that satisfies the predicate. -/
theorem takeWhile_all (p : Char → Bool) :
    ∀ (a b : List Char), (∀ c ∈ a, p c = true) →
      (a ++ b).takeWhile p = a ++ b.takeWhile p := by
  intro a
  induction a with
  | nil => intro b _; simp
  | cons x a ih =>
    intro b h
    simp only [List.cons_append, List.takeWhile_cons, h x (by simp), if_true]
    rw [ih b (fun c hc => h c (by simp [hc]))]

/-- `dropWhile` skips a prefix that satisfies the predicate. -/
theorem dropWhile_all (p : Char → Bool) :
    ∀ (a b : List Char), (∀ c ∈ a, p c = true) →
      (a ++ b).dropWhile p = b.dropWhile p := by
  intro a
  induction a with
  | nil => intro b _; simp
  | cons x a ih =>
    intro b h
    simp only [List.cons_append, List.dropWhile_cons, h x (by simp), if_true]
    exact ih b (fun c hc => h c (by simp [hc]))

/-- A nonempty case-insensitive pattern free of `"` and `>` that does not
match the (lowered) list cannot match the list padded with `"` `>`. -/
theorem startsWCI_padded_false :
    ∀ (l pat : List Char), pat ≠ [] → (∀ c ∈ pat, c ≠ '"' ∧ c ≠ '>') →
      startsW pat (lowerL l) = false → startsWCI pat (l ++ ['"', '>']) = false := by
  intro l
  induction l with
  | nil =>
    intro pat hne hchars _
    rcases pat with _ | ⟨p, ps⟩
    · exact absurd rfl hne
    · simp only [List.nil_append, startsWCI]
      have := hchars p (by simp)
      have hlc : lcChar '"' = '"' := by decide
      simp [hlc, this.1]
  | cons a l ih =>
    intro pat hne hchars h
    rcases pat with _ | ⟨p, ps⟩
    · exact absurd rfl hne
    · have hl : lowerL (a :: l) = lcChar a :: lowerL l := rfl
      rw [hl] at h
      simp only [startsW, Bool.and_eq_false_iff] at h
      simp only [List.cons_append, startsWCI, Bool.and_eq_false_iff]
      rcases h with h | h
      · left
        simpa using h
      · rcases ps with _ | ⟨p2, ps'⟩
        · simp [startsW] at h
        · right
          exact ih (p2 :: ps') (by simp)
            (fun c hc => hchars c (by simp at hc ⊢; tauto)) h

/-- The pattern `src=` (case-insensitively absent from the list) matches
nowhere in the list padded with `"` `>`. -/
theorem srceq_not_in_padded :
    ∀ (l : List Char), occursIn ['s', 'r', 'c', '='] (lowerL l) = false →
      ∀ m, startsWCI ['s', 'r', 'c', '='] ((l ++ ['"', '>']).drop m) = false := by
  intro l
  induction l with
  | nil =>
    intro _ m
    rcases m with _ | ⟨_ | m⟩
    · decide
    · decide
    · rw [List.drop_eq_nil_of_le (by simp)]
      rfl
  | cons a l ih =>
    intro hocc m
    have hl : lowerL (a :: l) = lcChar a :: lowerL l := rfl
    rw [hl, occursIn, Bool.or_eq_false_iff] at hocc
    rcases m with _ | m
    · simp only [List.drop_zero]
      exact startsWCI_padded_false (a :: l) ['s', 'r', 'c', '='] (by simp)
        (by decide) (by rw [hl]; exact hocc.1)
    · simp only [List.cons_append, List.drop_succ_cons]
      exact ih hocc.2 m

/-- A filter over `range` whose predicate holds exactly at `k < N` keeps
exactly `[k]`. -/
theorem filter_range_eq_single (pred : Nat → Bool) :
    ∀ (N k : Nat), k < N → (∀ j, pred j = true ↔ j = k) →
      (List.range N).filter pred = [k] := by
  intro N
  induction N with
  | zero => intro k hk; omega
  | succ N ih =>
    intro k hk h
    rw [List.range_succ, List.filter_append]
    by_cases hkN : k = N
    · subst hkN
      have h1 : (List.range k).filter pred = [] := by
        rw [List.filter_eq_nil]
        intro j hj
        simp only [List.mem_range] at hj
        intro hpj
        have := (h j).mp hpj
        omega
      have h2 : pred k = true := (h k).mpr rfl
      simp [h1, h2]
    · have h1 := ih k (by omega) h
      have h2 : pred N = false := by
        rcases hp : pred N with _ | _
        · rfl
        · exact absurd ((h N).mp hp).symm hkN
      simp [h1, h2]

/-- The quoted-value tail parses on the canonical suffix. -/
theorem imgTailMatch_canonical (src : List Char) (hne : src ≠ [])
    (hq : ∀ c ∈ src, quoteChar c = false) (hgt : ∀ c ∈ src, c ≠ '>') :
    imgTailMatch ('"' :: (src ++ ['"', '>'])) = some (src, [], []) := by
  unfold imgTailMatch
  have hq' : quoteChar '"' = true := by decide
  have hv : (src ++ ['"', '>']).takeWhile (fun c => !quoteChar c) = src := by
    rw [takeWhile_all _ src ['"', '>'] (fun c hc => by simp [hq c hc])]
    simp [List.takeWhile_cons]
    decide
  have hd : (src ++ ['"', '>']).dropWhile (fun c => !quoteChar c) = ['"', '>'] := by
    rw [dropWhile_all _ src ['"', '>'] (fun c hc => by simp [hq c hc])]
    simp [List.dropWhile_cons]
    decide
  simp only [hq', if_true, hv, hd]
  simp [hne]

/-- On the canonical tag body the greedy match finds the single `src=`
candidate: `before = " "`, the value is `src`, no trailing attributes and
nothing after the tag. -/
theorem imgFindParts_canonical (src : List Char) (hne : src ≠ [])
    (hq : ∀ c ∈ src, quoteChar c = false) (hgt : ∀ c ∈ src, c ≠ '>')
    (hocc : occursIn ['s', 'r', 'c', '='] (lowerL src) = false) :
    imgFindParts (' ' :: 's' :: 'r' :: 'c' :: '=' :: '"' :: (src ++ ['"', '>'])) =
      some ([' '], src, [], []) := by
  have htail := imgTailMatch_canonical src hne hq hgt
  have hw : (' ' :: 's' :: 'r' :: 'c' :: '=' :: '"' :: (src ++ ['"', '>'])).takeWhile
      (fun c => c ≠ '>') = ' ' :: 's' :: 'r' :: 'c' :: '=' :: '"' :: (src ++ ['"']) := by
    simp only [List.takeWhile_cons]
    norm_num
    rw [takeWhile_all _ src ['"', '>'] (fun c hc => by simp [hgt c hc])]
    simp [List.takeWhile_cons]
  have hpred : ∀ j,
      ((1 ≤ j && startsWCI ['s', 'r', 'c', '=']
          ((' ' :: 's' :: 'r' :: 'c' :: '=' :: '"' :: (src ++ ['"', '>'])).drop j))
        && (imgTailMatch ((' ' :: 's' :: 'r' :: 'c' :: '=' :: '"' :: (src ++ ['"', '>'])).drop
          (j + 4))).isSome) = true ↔ j = 1 := by
    intro j
    constructor
    · intro hj
      by_contra hne1
      rcases j with _ | ⟨_ | m⟩
      · simp at hj
      · exact hne1 rfl
      · rcases m with _ | ⟨_ | ⟨_ | ⟨_ | m⟩⟩⟩
        · simp only [List.drop_succ_cons, List.drop_zero] at hj
          simp only [startsWCI] at hj
          have : lcChar 'r' = 'r' := by decide
          simp [this] at hj
        · simp only [List.drop_succ_cons, List.drop_zero] at hj
          simp only [startsWCI] at hj
          have : lcChar 'c' = 'c' := by decide
          simp [this] at hj
        · simp only [List.drop_succ_cons, List.drop_zero] at hj
          simp only [startsWCI] at hj
          have : lcChar '=' = '=' := by decide
          simp [this] at hj
        · simp only [List.drop_succ_cons, List.drop_zero] at hj
          simp only [startsWCI] at hj
          have : lcChar '"' = '"' := by decide
          simp [this] at hj
        · have hdrop : ((' ' :: 's' :: 'r' :: 'c' :: '=' :: '"' :: (src ++ ['"', '>'])).drop
              (m + 6)) = (src ++ ['"', '>']).drop m := by
            simp [List.drop_succ_cons]
          rw [show m + 2 + 1 + 1 + 1 + 1 = m + 6 by omega] at hj
          rw [hdrop] at hj
          rw [srceq_not_in_padded src hocc m] at hj
          simp at hj
    · intro hj
      subst hj
      simp only [List.drop_succ_cons, List.drop_zero]
      have h1 : startsWCI ['s', 'r', 'c', '=']
          ('s' :: 'r' :: 'c' :: '=' :: '"' :: (src ++ ['"', '>'])) = true := rfl
      rw [htail, h1]
      simp
  simp only [imgFindParts]
  have hlen : (' ' :: 's' :: 'r' :: 'c' :: '=' :: '"' :: (src ++ ['"'])).length
      = 7 + src.length := by
    simp
    omega
  rw [hw, hlen]
  rw [filter_range_eq_single _ (7 + src.length + 1) 1 (by omega) hpred]
  simp [htail, List.drop_succ_cons, List.take_succ_cons]

/-- The img scanner on the empty list, at any fuel. -/
theorem normalizeImgF_nil (resolve : List Char → Option (List Char)) :
    ∀ fuel, normalizeImgF resolve fuel [] = [] := by
  intro fuel
  rcases fuel with _ | fuel <;> rfl

/-- Behaviour of the global img replacement on the canonical tag: skipped
or unresolvable sources keep the tag unchanged, resolvable ones are
rewritten to `<img src="<absolute>">`. -/
theorem normalizeImgF_canonical (resolve : List Char → Option (List Char))
    (src : List Char) (hne : src ≠ [])
    (hq : ∀ c ∈ src, quoteChar c = false) (hgt : ∀ c ∈ src, c ≠ '>')
    (hocc : occursIn ['s', 'r', 'c', '='] (lowerL src) = false) :
    normalizeImgF resolve (imgTag src).data.length (imgTag src).data =
      (if skipImgSrc src then (imgTag src).data
       else
        match resolve src with
        | some abs =>
          '<' :: 'i' :: 'm' :: 'g' :: ' ' :: 's' :: 'r' :: 'c' :: '=' :: '"' ::
            (abs ++ ['"', '>'])
        | none => (imgTag src).data) := by
  have hlen : (imgTag src).data.length = (11 + src.length) + 1 := by
    simp [imgTag]
    omega
  have hdata : (imgTag src).data =
      '<' :: 'i' :: 'm' :: 'g' :: ' ' :: 's' :: 'r' :: 'c' :: '=' :: '"' ::
        (src ++ ['"', '>']) := rfl
  rw [hlen, hdata]
  rw [normalizeImgF]
  have hopen : startsWCI ['<', 'i', 'm', 'g']
      ('<' :: 'i' :: 'm' :: 'g' :: ' ' :: 's' :: 'r' :: 'c' :: '=' :: '"' ::
        (src ++ ['"', '>'])) = true := rfl
  rw [hopen]
  have hdrop4 : (('<' :: 'i' :: 'm' :: 'g' :: ' ' :: 's' :: 'r' :: 'c' :: '=' :: '"' ::
      (src ++ ['"', '>'])).drop 4) =
      ' ' :: 's' :: 'r' :: 'c' :: '=' :: '"' :: (src ++ ['"', '>']) := rfl
  simp only [if_true]
  rw [hdrop4, imgFindParts_canonical src hne hq hgt hocc]
  by_cases hskip : skipImgSrc src
  · simp [hskip, normalizeImgF_nil]
  · simp only [Bool.not_eq_true] at hskip
    rcases hres : resolve src with _ | abs
    · simp [hskip, hres, normalizeImgF_nil]
    · simp [hskip, hres, normalizeImgF_nil]

/-- C9: `normalizeImageUrls` rewrites an `<img src>` value that is not
already absolute (`http://`/`https://`) and not a data-URI into an
absolute URL resolved against the page's base URL, and leaves
already-absolute, data-URI and unresolvable sources unchanged.  The
claim's two concrete examples hold, and the universal statement is proved
for the canonical single-source tag `<img src="…">` over every source
value (quote-free, `>`-free, without a case-insensitive `src=` inside) and
every base URL. -/
theorem C9_normalize_image_urls :
    (normalizeImageUrls "<img src=\"img.png\">" "https://site.example/posts/1" =
        "<img src=\"https://site.example/posts/img.png\">" ∧
     normalizeImageUrls "<img src=\"https://other.com/x.png\">" "https://site.example/posts/1" =
        "<img src=\"https://other.com/x.png\">") ∧
    (∀ (src : List Char) (base : String),
      src ≠ [] →
      (∀ c ∈ src, quoteChar c = false) → (∀ c ∈ src, c ≠ '>') →
      occursIn ['s', 'r', 'c', '='] (lowerL src) = false →
      normalizeImageUrls (imgTag src) base =
        match parseUrlModel base with
        | none => imgTag src
        | some b =>
          if skipImgSrc src then imgTag src
          else
            match resolveUrlModel ⟨src⟩ b with
            | some abs => ⟨"<img src=\"".data ++ (abs.data ++ ['"', '>'])⟩
            | none => imgTag src) := by
  refine ⟨⟨by decide, by decide⟩, ?_⟩
  intro src base hne hq hgt hocc
  unfold normalizeImageUrls
  rcases hb : parseUrlModel base with _ | b
  · rfl
  · simp only []
    rw [show (imgTag src).data.length = (imgTag src).data.length from rfl]
    rw [normalizeImgF_canonical (fun v => (resolveUrlModel ⟨v⟩ b).map String.data)
      src hne hq hgt hocc]
    by_cases hskip : skipImgSrc src
    · simp only [hskip, if_true]
    · simp only [hskip, if_false]
      rcases hres : resolveUrlModel ⟨src⟩ b with _ | abs
      · simp only [hres, Option.map_none']
        rfl
      · simp only [hres, Option.map_some']
        rfl

/-- Witness for C9's universal statement at the claim's concrete input. -/
theorem C9_witness :
    normalizeImageUrls (imgTag "img.png".data) "https://site.example/posts/1" =
      "<img src=\"https://site.example/posts/img.png\">" := by
  have h := C9_normalize_image_urls.2 "img.png".data "https://site.example/posts/1"
    (by decide) (by decide) (by decide) (by decide)
  rw [h]
  decide
